import Mathlib

set_option maxRecDepth 40000

/-!
Verification of the `three-d` rendering-engine specification against the
source files of the repository.

The development shallowly embeds, in Lean, the code that the claims are
about:

* `src/phong.rs` — the phong fragment-shader composer
  (`phong_fragment_shader`) and the light binder (`bind_lights`);
* `src/core/texture/texture2d.rs` — `Texture2D::new_empty` and
  `Texture2D::fill`;
* `src/renderer/object/model.rs` — `Model::new`;
* `src/renderer/object/instanced_model.rs` — `render_forward`.

Strings are modelled as Lean `String`s (lists of characters); the decimal
formatting `format!("{}", i)` of Rust is modelled by the executable
function `natDigs`.  Counting of substring occurrences is made precise by
`countOcc`.  The contents of the three `include_str!` GLSL snippets
(`core/shared.frag`, `phong/shaders/light_shared.frag`,
`phong/shaders/lighting.frag`) are not part of the provided sources and
are modelled from the specification as fixed digit-free strings.
-/

namespace ThreeD

/-! ### Decimal digit strings

`natDigs n` is the list of decimal digit characters of `n`, most
significant first, with no leading zeros (and `"0"` for `0`) — the
character sequence produced by Rust's `format!("{}", n)`.  It is defined
structurally with an explicit fuel argument so that it computes by
`decide`/`rfl`. -/

def digsCore : Nat → Nat → List Char
  | 0, _ => []
  | fuel + 1, n =>
    if n < 10 then [Nat.digitChar n]
    else digsCore fuel (n / 10) ++ [Nat.digitChar (n % 10)]

def natDigs (n : Nat) : List Char := digsCore (n + 1) n

/-- Decimal string of a natural number, as produced by `format!("{}", n)`. -/
def natStr (n : Nat) : String := String.mk (natDigs n)

theorem digsCore_fuel (f1 : Nat) : ∀ f2 n, n < f1 → n < f2 →
    digsCore f1 n = digsCore f2 n := by
  induction f1 with
  | zero => intro f2 n h; omega
  | succ f ih =>
    intro f2 n h1 h2
    cases f2 with
    | zero => omega
    | succ g =>
      simp only [digsCore]
      by_cases h10 : n < 10
      · simp [h10]
      · have hdiv : n / 10 < n := Nat.div_lt_self (by omega) (by omega)
        simp only [h10, if_false]
        rw [ih g (n / 10) (by omega) (by omega)]

theorem natDigs_unfold (n : Nat) :
    natDigs n = if n < 10 then [Nat.digitChar n]
      else natDigs (n / 10) ++ [Nat.digitChar (n % 10)] := by
  show digsCore (n + 1) n = _
  by_cases h10 : n < 10
  · simp [digsCore, h10]
  · have hdiv : n / 10 < n := Nat.div_lt_self (by omega) (by omega)
    simp only [digsCore, h10, if_false]
    rw [digsCore_fuel n (n / 10 + 1) (n / 10) (by omega) (by omega)]
    rfl

theorem digitChar_isDigit {m : Nat} (h : m < 10) :
    (Nat.digitChar m).isDigit = true := by
  interval_cases m <;> decide

theorem digitChar_val {m : Nat} (h : m < 10) :
    (Nat.digitChar m).toNat - 48 = m := by
  interval_cases m <;> decide

theorem natDigs_ne_nil (n : Nat) : natDigs n ≠ [] := by
  rw [natDigs_unfold]
  by_cases h10 : n < 10
  · simp [h10]
  · simp [h10]

theorem natDigs_isDigit (n : Nat) : ∀ c ∈ natDigs n, c.isDigit = true := by
  induction n using Nat.strong_induction_on with
  | _ n ih =>
    rw [natDigs_unfold]
    by_cases h10 : n < 10
    · simp only [h10, if_true, List.mem_singleton]
      rintro c rfl
      exact digitChar_isDigit h10
    · have hdiv : n / 10 < n := Nat.div_lt_self (by omega) (by omega)
      simp only [h10, if_false, List.mem_append, List.mem_singleton]
      rintro c (hc | rfl)
      · exact ih (n / 10) hdiv c hc
      · exact digitChar_isDigit (Nat.mod_lt n (by omega))

/-- Value of a digit string, used to invert `natDigs`. -/
def digsVal (l : List Char) : Nat :=
  l.foldl (fun a c => 10 * a + (c.toNat - 48)) 0

theorem digsVal_go (l : List Char) : ∀ a : Nat,
    l.foldl (fun a c => 10 * a + (c.toNat - 48)) a =
      a * 10 ^ l.length + digsVal l := by
  induction l with
  | nil => intro a; simp [digsVal]
  | cons c l ih =>
    intro a
    simp only [List.foldl_cons, digsVal]
    rw [ih, ih (0 * 10 + (c.toNat - 48))]
    simp only [List.length_cons, pow_succ]
    ring

theorem digsVal_natDigs (n : Nat) : digsVal (natDigs n) = n := by
  induction n using Nat.strong_induction_on with
  | _ n ih =>
    rw [natDigs_unfold]
    by_cases h10 : n < 10
    · simp only [h10, if_true, digsVal, List.foldl_cons, List.foldl_nil]
      have := digitChar_val h10
      omega
    · have hdiv : n / 10 < n := Nat.div_lt_self (by omega) (by omega)
      simp only [h10, if_false, digsVal, List.foldl_append, List.foldl_cons,
        List.foldl_nil]
      have h1 : (natDigs (n / 10)).foldl (fun a c => 10 * a + (c.toNat - 48)) 0
          = n / 10 := ih (n / 10) hdiv
      rw [h1, digitChar_val (Nat.mod_lt n (by omega))]
      omega

theorem natDigs_injective : Function.Injective natDigs := by
  intro a b h
  have := digsVal_natDigs a
  rw [h, digsVal_natDigs] at this
  omega

theorem natDigs_inj {a b : Nat} : natDigs a = natDigs b ↔ a = b :=
  ⟨fun h => natDigs_injective h, fun h => by rw [h]⟩

end ThreeD

namespace ThreeD

/-! ### Counting substring occurrences

`countOcc p t` counts the positions of `t` at which the pattern `p`
occurs (as a contiguous substring).  It is the reference notion used to
state "the composed source contains exactly one declaration ...". -/

def countOcc (p : List Char) : List Char → Nat
  | [] => if p = [] then 1 else 0
  | c :: l => (if p <+: c :: l then 1 else 0) + countOcc p l

theorem pfx_iff_get (p q : List Char) :
    p <+: q ↔ ∀ m, m < p.length → p[m]? = q[m]? := by
  constructor
  · rintro ⟨t, rfl⟩ m hm
    exact (List.getElem?_append_left hm).symm
  · intro h
    have hlen : p.length ≤ q.length := by
      by_contra hlt
      push_neg at hlt
      have h1 : p[q.length]? = none := by
        rw [h q.length hlt]
        exact List.getElem?_eq_none le_rfl
      rw [List.getElem?_eq_none_iff] at h1
      omega
    rw [ List.prefix_iff_eq_take]
    apply List.ext_getElem?
    intro n
    rw [List.getElem?_take]
    by_cases hn : n < p.length
    · rw [if_pos hn]
      exact h n hn
    · rw [if_neg hn]
      exact List.getElem?_eq_none (by omega)

theorem countOcc_eq_countP (p l : List Char) :
    countOcc p l =
      List.countP (fun k => decide (p <+: l.drop k)) (List.range (l.length + 1)) := by
  induction l with
  | nil =>
    have h1 : List.range 1 = [0] := rfl
    simp only [countOcc, List.length_nil, h1, List.countP_cons, List.countP_nil,
      List.drop_nil, List.prefix_nil]
    by_cases hp : p = [] <;> simp [hp]
  | cons c l ih =>
    have hsplit : List.range ((c :: l).length + 1)
        = List.range 1 ++ (List.range (l.length + 1)).map (fun x => 1 + x) := by
      rw [← List.range_add]
      congr 1
      simp only [List.length_cons]
      omega
    rw [hsplit, List.countP_append, List.countP_map]
    have h1 : List.range 1 = [0] := rfl
    have h2 : List.countP (fun k => decide (p <+: (c :: l).drop k)) [0]
        = if p <+: c :: l then 1 else 0 := by
      simp only [List.countP_cons, List.countP_nil, List.drop_zero]
      by_cases hp : p <+: c :: l <;> simp [hp]
    have h3 : ((fun k => decide (p <+: (c :: l).drop k)) ∘ fun x => 1 + x)
        = fun k => decide (p <+: l.drop k) := by
      funext k
      simp only [Function.comp]
      congr 1
      rw [Nat.add_comm 1 k, List.drop_succ_cons]
    rw [h1, h2, h3, countOcc, ← ih, Nat.add_comm]

theorem countOcc_eq_zero_of_short {p t : List Char} (h : t.length < p.length) :
    countOcc p t = 0 := by
  rw [countOcc_eq_countP, List.countP_eq_zero]
  intro k _ hk
  rw [decide_eq_true_eq] at hk
  have h1 := hk.length_le
  rw [List.length_drop] at h1
  omega

theorem countOcc_eq_zero_of_digitFree {p t : List Char}
    (hc : ∃ c ∈ p, c.isDigit = true) (ht : ∀ c ∈ t, c.isDigit = false) :
    countOcc p t = 0 := by
  rw [countOcc_eq_countP, List.countP_eq_zero]
  intro k _ hk
  rw [decide_eq_true_eq] at hk
  obtain ⟨c, hcp, hcd⟩ := hc
  have h1 : c ∈ t := List.mem_of_mem_drop (hk.subset hcp)
  rw [ht c h1] at hcd
  exact Bool.noConfusion hcd

theorem one_le_countOcc_of_infix {p t : List Char} (h : p <:+: t) :
    1 ≤ countOcc p t := by
  obtain ⟨s, e, rfl⟩ := h
  rw [countOcc_eq_countP]
  rw [Nat.succ_le_iff, List.countP_pos_iff]
  refine ⟨s.length, ?_, ?_⟩
  · rw [List.mem_range]
    simp only [List.length_append]
    omega
  · rw [decide_eq_true_eq, List.append_assoc, List.drop_left]
    exact ⟨e, rfl⟩

theorem countOcc_tail_le (p t : List Char) : countOcc p t.tail ≤ countOcc p t := by
  cases t with
  | nil => exact le_rfl
  | cons c l =>
    show countOcc p l ≤ (if p <+: c :: l then 1 else 0) + countOcc p l
    omega

theorem countOcc_drop_le (p t : List Char) (m : Nat) :
    countOcc p (t.drop m) ≤ countOcc p t := by
  induction m with
  | zero => rw [List.drop_zero]
  | succ m ih =>
    calc countOcc p (t.drop (m + 1)) = countOcc p (t.drop m).tail := by
          rw [List.tail_drop]
      _ ≤ countOcc p (t.drop m) := countOcc_tail_le _ _
      _ ≤ countOcc p t := ih

theorem countOcc_prepend_le (a b t : List Char) (hb : b ≠ []) :
    countOcc (a ++ b) t ≤ countOcc b (t.drop a.length) := by
  by_cases hlen : a.length ≤ t.length
  · rw [countOcc_eq_countP, countOcc_eq_countP]
    have hlen2 : (t.drop a.length).length = t.length - a.length := List.length_drop _ _
    rw [hlen2]
    have hsplit : List.range (t.length + 1)
        = List.range (t.length - a.length + 1)
          ++ (List.range a.length).map (fun x => t.length - a.length + 1 + x) := by
      rw [← List.range_add]
      congr 1
      omega
    rw [hsplit, List.countP_append]
    have h2 : List.countP (fun k => decide (a ++ b <+: t.drop k))
        ((List.range a.length).map (fun x => t.length - a.length + 1 + x)) = 0 := by
      rw [List.countP_eq_zero]
      intro k hk hbk
      rw [List.mem_map] at hk
      obtain ⟨x, _, rfl⟩ := hk
      rw [decide_eq_true_eq] at hbk
      have h3 := hbk.length_le
      rw [List.length_drop, List.length_append] at h3
      have hbl : 0 < b.length := List.length_pos.mpr hb
      omega
    rw [h2, Nat.add_zero]
    apply List.countP_mono_left
    intro k _ hk
    rw [decide_eq_true_eq] at hk ⊢
    obtain ⟨e, he⟩ := hk
    rw [List.append_assoc] at he
    refine ⟨e, ?_⟩
    have h4 : List.drop a.length (List.drop k t) = b ++ e := by
      rw [← he, List.drop_left]
    rw [List.drop_drop] at h4
    rw [List.drop_drop, Nat.add_comm a.length k]
    exact h4.symm
  · have h1 : countOcc (a ++ b) t = 0 := by
      apply countOcc_eq_zero_of_short
      rw [List.length_append]
      have hbl : 0 < b.length := List.length_pos.mpr hb
      omega
    omega

theorem pfx_localize {w : List Char} (a b : List Char) (h : w.length ≤ a.length) :
    w <+: a ++ b ↔ w <+: a := by
  constructor
  · intro hw
    rw [ List.prefix_iff_eq_take] at hw ⊢
    rw [List.take_append_of_le_length h] at hw
    exact hw
  · intro hw
    exact hw.trans ( List.prefix_append a b)

theorem sfx_localize {u : List Char} (a b : List Char) (h : u.length ≤ b.length) :
    u <:+ a ++ b ↔ u <:+ b := by
  constructor
  · intro hs
    rw [List.suffix_iff_eq_drop] at hs ⊢
    rw [List.length_append] at hs
    have h2 : a.length + b.length - u.length = a.length + (b.length - u.length) := by
      omega
    rw [h2, ← List.drop_drop, List.drop_left] at hs
    exact hs
  · intro hs
    exact hs.trans ( List.suffix_append a b)

theorem sfx_getLast {u t : List Char} (hu : u ≠ []) (h : u <:+ t) :
    u.getLast? = t.getLast? := by
  obtain ⟨s, rfl⟩ := h
  rw [List.getLast?_append]
  cases hg : u.getLast? with
  | none =>
    rw [List.getLast?_eq_none_iff] at hg
    exact absurd hg hu
  | some c => rfl

theorem not_sfx_of_getLast_ne {u B : List Char} (a : List Char) (hu : u ≠ [])
    (hB : B ≠ []) (h : u.getLast? ≠ B.getLast?) : ¬ u <:+ a ++ B := by
  intro hs
  apply h
  rw [sfx_getLast hu hs, List.getLast?_append]
  cases hg : B.getLast? with
  | none =>
    rw [List.getLast?_eq_none_iff] at hg
    exact absurd hg hB
  | some c => rfl

theorem not_sfx_of_short {u t : List Char} (h : t.length < u.length) : ¬ u <:+ t := by
  intro hs
  have := hs.length_le
  omega

end ThreeD

namespace ThreeD

theorem countP_or_disjoint (l : List Nat) (g1 g2 : Nat → Bool)
    (hdis : ∀ k ∈ l, ¬(g1 k = true ∧ g2 k = true)) :
    List.countP (fun k => g1 k || g2 k) l = List.countP g1 l + List.countP g2 l := by
  induction l with
  | nil => simp
  | cons a l ih =>
    simp only [List.countP_cons]
    rw [ih (fun k hk => hdis k (List.mem_cons_of_mem a hk))]
    have ha := hdis a (List.mem_cons_self a l)
    cases h1 : g1 a <;> cases h2 : g2 a <;> simp_all <;> omega

theorem countP_eq_single_range (k0 N : Nat) (hk : k0 < N) :
    List.countP (fun k => decide (k = k0)) (List.range N) = 1 := by
  induction N with
  | zero => omega
  | succ N ih =>
    rw [List.range_succ, List.countP_append]
    by_cases h : k0 < N
    · rw [ih h]
      have h2 : List.countP (fun k => decide (k = k0)) [N] = 0 := by
        simp only [List.countP_cons, List.countP_nil]
        have : N ≠ k0 := by omega
        simp [this]
      rw [h2]
    · have hk0 : k0 = N := by omega
      subst hk0
      have h1 : List.countP (fun k => decide (k = k0)) (List.range k0) = 0 := by
        rw [List.countP_eq_zero]
        intro a ha hd
        rw [List.mem_range] at ha
        rw [decide_eq_true_eq] at hd
        omega
      rw [h1]
      simp [List.countP_cons]

theorem getElem?_of_ne_nil {l : List Char} (h : l ≠ []) :
    ∃ c, l[0]? = some c := by
  cases hg : l[0]? with
  | none =>
    rw [List.getElem?_eq_none_iff] at hg
    have := List.length_pos.mpr h
    omega
  | some c => exact ⟨c, rfl⟩

/-- Pointwise occurrence analysis around a digit run in the text.  The
pattern is `u ++ v ++ w` with `u`, `w` nonempty and digit-free and `v`
all digits; the text is `x ++ d ++ y` where `d` is a nonempty digit run,
`x` is digit-free and `y` starts with a non-digit.  An occurrence starting
before the end of `d` is either entirely inside `x` or exactly aligned so
that `v` covers `d`. -/
theorem occ_split_pointwise
    (u v w x d y : List Char)
    (hu : u ≠ []) (hw : w ≠ [])
    (hud : ∀ c ∈ u, c.isDigit = false) (hwd : ∀ c ∈ w, c.isDigit = false)
    (hvd : ∀ c ∈ v, c.isDigit = true)
    (hd : ∀ c ∈ d, c.isDigit = true) (hdn : d ≠ [])
    (hx : ∀ c ∈ x, c.isDigit = false)
    (hyh : ∀ c, y[0]? = some c → c.isDigit = false) (hyn : y ≠ [])
    (k : Nat) (hk : k < x.length + d.length) :
    (u ++ v ++ w <+: (x ++ d ++ y).drop k) ↔
      (u ++ v ++ w <+: x.drop k ∨
        (k = x.length - u.length ∧ v = d ∧ u <:+ x ∧ w <+: y)) := by
  have hU : 0 < u.length := List.length_pos.mpr hu
  have hW : 0 < w.length := List.length_pos.mpr hw
  have hD : 0 < d.length := List.length_pos.mpr hdn
  have hY : 0 < y.length := List.length_pos.mpr hyn
  have hplen : (u ++ v ++ w).length = u.length + v.length + w.length := by
    simp only [List.length_append]
  have htx : ∀ q, q < x.length → (x ++ d ++ y)[q]? = x[q]? := by
    intro q hq
    rw [List.append_assoc, List.getElem?_append_left hq]
  have htd : ∀ r, r < d.length → (x ++ d ++ y)[x.length + r]? = d[r]? := by
    intro r hr
    rw [List.append_assoc, List.getElem?_append_right (by omega)]
    have h1 : x.length + r - x.length = r := by omega
    rw [h1, List.getElem?_append_left hr]
  have hty : ∀ s, (x ++ d ++ y)[x.length + d.length + s]? = y[s]? := by
    intro s
    rw [List.append_assoc, List.getElem?_append_right (by omega)]
    have h1 : x.length + d.length + s - x.length = d.length + s := by omega
    rw [h1, List.getElem?_append_right (by omega)]
    congr 1
    omega
  have hpu : ∀ m, m < u.length → (u ++ v ++ w)[m]? = u[m]? := by
    intro m hm
    rw [List.getElem?_append_left (by rw [List.length_append]; omega),
      List.getElem?_append_left hm]
  have hpv : ∀ r, r < v.length → (u ++ v ++ w)[u.length + r]? = v[r]? := by
    intro r hr
    rw [List.getElem?_append_left (by rw [List.length_append]; omega),
      List.getElem?_append_right (by omega)]
    congr 1
    omega
  have hpw : ∀ s, (u ++ v ++ w)[u.length + v.length + s]? = w[s]? := by
    intro s
    rw [List.getElem?_append_right (by rw [List.length_append]; omega)]
    congr 1
    rw [List.length_append]
    omega
  have hocc : (u ++ v ++ w <+: (x ++ d ++ y).drop k) ↔
      ∀ m, m < (u ++ v ++ w).length → (u ++ v ++ w)[m]? = (x ++ d ++ y)[k + m]? := by
    rw [pfx_iff_get]
    constructor <;> intro h m hm
    · rw [← List.getElem?_drop]
      exact h m hm
    · rw [List.getElem?_drop]
      exact h m hm
  have hoccx : (u ++ v ++ w <+: x.drop k) ↔
      ∀ m, m < (u ++ v ++ w).length → (u ++ v ++ w)[m]? = x[k + m]? := by
    rw [pfx_iff_get]
    constructor <;> intro h m hm
    · rw [← List.getElem?_drop]
      exact h m hm
    · rw [List.getElem?_drop]
      exact h m hm
  constructor
  · -- forward direction: analyse the occurrence
    intro hpfx
    have hget := hocc.mp hpfx
    -- step A : the occurrence starts inside x
    have hkx : k < x.length := by
      by_contra hge
      push_neg at hge
      obtain ⟨u0, hu0⟩ := getElem?_of_ne_nil hu
      have h1 := hget 0 (by omega)
      rw [Nat.add_zero] at h1
      rw [hpu 0 hU, hu0] at h1
      have h2 : k = x.length + (k - x.length) := by omega
      rw [h2, htd (k - x.length) (by omega)] at h1
      have h3 : u0 ∈ d := List.getElem?_mem h1.symm
      have hc1 := hd u0 h3
      have hc2 := hud u0 (List.getElem?_mem hu0)
      rw [hc2] at hc1
      exact Bool.noConfusion hc1
    -- step B : all of u fits inside x
    have hkU : k + u.length ≤ x.length := by
      by_contra hgt
      push_neg at hgt
      have hm : x.length - k < u.length := by omega
      have h1 := hget (x.length - k) (by omega)
      have h2 : k + (x.length - k) = x.length + 0 := by omega
      rw [h2, htd 0 hD, hpu (x.length - k) hm] at h1
      obtain ⟨c, hc⟩ : ∃ c, u[x.length - k]? = some c := by
        cases hg : u[x.length - k]? with
        | none =>
          rw [List.getElem?_eq_none_iff] at hg
          omega
        | some c => exact ⟨c, rfl⟩
      rw [hc] at h1
      have h4 : c ∈ d := List.getElem?_mem h1.symm
      have hc1 := hd c h4
      have hc2 := hud c (List.getElem?_mem hc)
      rw [hc2] at hc1
      exact Bool.noConfusion hc1
    by_cases hin : k + (u ++ v ++ w).length ≤ x.length
    · -- occurrence entirely inside x
      left
      rw [hoccx]
      intro m hm
      rw [hget m hm, htx (k + m) (by omega)]
    · -- aligned occurrence
      push_neg at hin
      -- step C : u ends exactly at the digit run
      have hkUeq : k + u.length = x.length := by
        by_contra hne
        have hlt : k + u.length < x.length := by omega
        have hm1b : x.length - k < (u ++ v ++ w).length := by omega
        have h1 := hget (x.length - k) hm1b
        have h2 : k + (x.length - k) = x.length + 0 := by omega
        rw [h2, htd 0 hD] at h1
        obtain ⟨d0, hd0⟩ := getElem?_of_ne_nil hdn
        have hd0d : d0.isDigit = true := hd d0 (List.getElem?_mem hd0)
        rw [hd0] at h1
        have hm1v : x.length - k < u.length + v.length := by
          by_contra hge2
          push_neg at hge2
          have h3 : x.length - k
              = u.length + v.length + (x.length - k - u.length - v.length) := by
            omega
          rw [h3, hpw (x.length - k - u.length - v.length)] at h1
          have h4 : d0 ∈ w := List.getElem?_mem h1
          have hc1 := hwd d0 h4
          rw [hc1] at hd0d
          exact Bool.noConfusion hd0d
        have h5 := hget (x.length - k - 1) (by omega)
        have h6 : k + (x.length - k - 1) = x.length - 1 := by omega
        rw [h6, htx (x.length - 1) (by omega)] at h5
        have h7 : x.length - k - 1 = u.length + (x.length - k - 1 - u.length) := by
          omega
        rw [h7, hpv (x.length - k - 1 - u.length) (by omega)] at h5
        obtain ⟨c5, hc5⟩ : ∃ c, v[x.length - k - 1 - u.length]? = some c := by
          cases hg : v[x.length - k - 1 - u.length]? with
          | none =>
            rw [List.getElem?_eq_none_iff] at hg
            omega
          | some c => exact ⟨c, rfl⟩
        rw [hc5] at h5
        have h8 : c5 ∈ x := List.getElem?_mem h5.symm
        have hc1 := hx c5 h8
        have hc2 := hvd c5 (List.getElem?_mem hc5)
        rw [hc1] at hc2
        exact Bool.noConfusion hc2
      -- step D : v has exactly the length of the run
      have hVD : v.length = d.length := by
        rcases Nat.lt_trichotomy v.length d.length with hlt | heq | hgt
        · exfalso
          have h1 := hget (u.length + v.length) (by omega)
          have hpw0 : (u ++ v ++ w)[u.length + v.length]? = w[0]? := by
            have h0 := hpw 0
            rw [Nat.add_zero] at h0
            exact h0
          rw [hpw0] at h1
          have h2 : k + (u.length + v.length) = x.length + v.length := by omega
          rw [h2, htd v.length hlt] at h1
          obtain ⟨w0, hw0⟩ := getElem?_of_ne_nil hw
          rw [hw0] at h1
          have h3 : w0 ∈ d := List.getElem?_mem h1.symm
          have hc1 := hd w0 h3
          have hc2 := hwd w0 (List.getElem?_mem hw0)
          rw [hc2] at hc1
          exact Bool.noConfusion hc1
        · exact heq
        · exfalso
          have h1 := hget (u.length + d.length) (by omega)
          rw [hpv d.length (by omega)] at h1
          have h2 : k + (u.length + d.length) = x.length + d.length + 0 := by omega
          rw [h2, hty 0] at h1
          obtain ⟨c, hc⟩ : ∃ c, v[d.length]? = some c := by
            cases hg : v[d.length]? with
            | none =>
              rw [List.getElem?_eq_none_iff] at hg
              omega
            | some c => exact ⟨c, rfl⟩
          rw [hc] at h1
          have h3 := hyh c h1.symm
          have hc2 := hvd c (List.getElem?_mem hc)
          rw [h3] at hc2
          exact Bool.noConfusion hc2
      refine Or.inr ⟨by omega, ?_, ?_, ?_⟩
      · -- v = d
        apply List.ext_getElem?
        intro r
        by_cases hr : r < v.length
        · have h1 := hget (u.length + r) (by omega)
          rw [hpv r hr] at h1
          have h2 : k + (u.length + r) = x.length + r := by omega
          rw [h2, htd r (by omega)] at h1
          exact h1
        · rw [List.getElem?_eq_none (by omega), List.getElem?_eq_none (by omega)]
      · -- u is a suffix of x
        have hdk : x.drop k = u := by
          apply List.ext_getElem?
          intro m
          rw [List.getElem?_drop]
          by_cases hm : m < u.length
          · have h1 := hget m (by omega)
            rw [hpu m hm] at h1
            rw [← htx (k + m) (by omega)]
            exact h1.symm
          · rw [List.getElem?_eq_none (show x.length ≤ k + m by omega),
              List.getElem?_eq_none (by omega)]
        rw [← hdk]
        exact List.drop_suffix k x
      · -- w is a prefix of y
        rw [pfx_iff_get]
        intro s hs
        have h1 := hget (u.length + v.length + s) (by omega)
        rw [hpw s] at h1
        have h2 : k + (u.length + v.length + s) = x.length + d.length + s := by
          omega
        rw [h2, hty s] at h1
        exact h1
  · -- backward direction
    rintro (hpfx | ⟨hk0, hvd2, hux2, hwy2⟩)
    · rw [hocc]
      intro m hm
      have h1 := hoccx.mp hpfx m hm
      have hlen2 := hpfx.length_le
      rw [List.length_drop] at hlen2
      have hplen2 : 0 < (u ++ v ++ w).length := by rw [hplen]; omega
      rw [h1, htx (k + m) (by omega)]
    · subst hk0
      subst hvd2
      obtain ⟨x1, hx1⟩ := hux2
      obtain ⟨y1, hy1⟩ := hwy2
      rw [← hx1, ← hy1]
      have hlen3 : (x1 ++ u).length - u.length = x1.length := by
        rw [List.length_append]
        omega
      rw [hlen3]
      have hrearr : (x1 ++ u) ++ v ++ (w ++ y1) = x1 ++ ((u ++ v ++ w) ++ y1) := by
        simp [List.append_assoc]
      rw [hrearr, List.drop_left]
      exact List.prefix_append (u ++ v ++ w) y1

end ThreeD

namespace ThreeD

/-- Counting form of the split around a digit run: occurrences of the
pattern `u ++ v ++ w` in `x ++ d ++ y` are the occurrences in `x`, plus
the occurrences in `y`, plus the single aligned occurrence over the run
`d` when (and only when) `v = d`, `u` is a suffix of `x` and `w` is a
prefix of `y`. -/
theorem countOcc_split
    (u v w x d y : List Char)
    (hu : u ≠ []) (hw : w ≠ [])
    (hud : ∀ c ∈ u, c.isDigit = false) (hwd : ∀ c ∈ w, c.isDigit = false)
    (hvd : ∀ c ∈ v, c.isDigit = true)
    (hd : ∀ c ∈ d, c.isDigit = true) (hdn : d ≠ [])
    (hx : ∀ c ∈ x, c.isDigit = false)
    (hyh : ∀ c, y[0]? = some c → c.isDigit = false) (hyn : y ≠ []) :
    countOcc (u ++ v ++ w) (x ++ d ++ y) =
      countOcc (u ++ v ++ w) x + countOcc (u ++ v ++ w) y +
        (if v = d ∧ u <:+ x ∧ w <+: y then 1 else 0) := by
  have hU : 0 < u.length := List.length_pos.mpr hu
  have hW : 0 < w.length := List.length_pos.mpr hw
  have hD : 0 < d.length := List.length_pos.mpr hdn
  have hY : 0 < y.length := List.length_pos.mpr hyn
  have hpne : u ++ v ++ w ≠ [] := by
    intro h
    have := congrArg List.length h
    simp only [List.length_append, List.length_nil] at this
    omega
  have htlen : (x ++ d ++ y).length = x.length + d.length + y.length := by
    simp only [List.length_append]
  rw [countOcc_eq_countP (u ++ v ++ w) (x ++ d ++ y), htlen]
  have hsplit : List.range (x.length + d.length + y.length + 1)
      = List.range (x.length + d.length)
        ++ (List.range (y.length + 1)).map (fun j => x.length + d.length + j) := by
    rw [← List.range_add]
    congr 1
  rw [hsplit, List.countP_append, List.countP_map]
  -- the shifted zone counts occurrences inside y
  have hzone2 : List.countP
      ((fun k => decide (u ++ v ++ w <+: (x ++ d ++ y).drop k))
        ∘ fun j => x.length + d.length + j) (List.range (y.length + 1))
      = countOcc (u ++ v ++ w) y := by
    rw [countOcc_eq_countP]
    apply List.countP_congr
    intro j _
    simp only [Function.comp, decide_eq_true_eq]
    have hdd : (x ++ d ++ y).drop (x.length + d.length + j) = y.drop j := by
      have h1 : (x ++ d ++ y) = (x ++ d) ++ y := by rw [List.append_assoc]
      have h2 : x.length + d.length + j = (x ++ d).length + j := by
        rw [List.length_append]
      rw [h1, h2, ← List.drop_drop, List.drop_left]
    rw [hdd]
  rw [hzone2]
  -- the first zone: inside x, plus possibly the aligned occurrence
  have hzone1 : List.countP (fun k => decide (u ++ v ++ w <+: (x ++ d ++ y).drop k))
      (List.range (x.length + d.length))
      = countOcc (u ++ v ++ w) x
        + (if v = d ∧ u <:+ x ∧ w <+: y then 1 else 0) := by
    have hcongr : List.countP (fun k => decide (u ++ v ++ w <+: (x ++ d ++ y).drop k))
        (List.range (x.length + d.length))
        = List.countP (fun k => decide (u ++ v ++ w <+: x.drop k)
            || (decide (k = x.length - u.length)
                && decide (v = d ∧ u <:+ x ∧ w <+: y)))
          (List.range (x.length + d.length)) := by
      apply List.countP_congr
      intro k hk
      rw [List.mem_range] at hk
      simp only [Bool.or_eq_true, Bool.and_eq_true, decide_eq_true_eq]
      rw [occ_split_pointwise u v w x d y hu hw hud hwd hvd hd hdn hx hyh hyn k hk]
    rw [hcongr]
    rw [countP_or_disjoint]
    · congr 1
      · -- occurrences inside x over the extended range
        rw [countOcc_eq_countP]
        have hsplit2 : List.range (x.length + d.length)
            = List.range (x.length + 1)
              ++ (List.range (d.length - 1)).map (fun j => x.length + 1 + j) := by
          rw [← List.range_add]
          congr 1
          omega
        rw [hsplit2, List.countP_append, List.countP_map]
        have hz : List.countP
            ((fun k => decide (u ++ v ++ w <+: x.drop k))
              ∘ fun j => x.length + 1 + j) (List.range (d.length - 1)) = 0 := by
          rw [List.countP_eq_zero]
          intro j _ hj
          simp only [Function.comp, decide_eq_true_eq] at hj
          have h1 : x.drop (x.length + 1 + j) = [] := by
            apply List.drop_eq_nil_of_le
            omega
          rw [h1, List.prefix_nil] at hj
          exact hpne hj
        rw [hz, Nat.add_zero]
      · -- the aligned position is counted once iff the alignment holds
        by_cases hC : v = d ∧ u <:+ x ∧ w <+: y
        · have hCd : decide (v = d ∧ u <:+ x ∧ w <+: y) = true := by
            rw [decide_eq_true_eq]
            exact hC
          simp only [hCd, Bool.and_true]
          rw [if_pos hC]
          apply countP_eq_single_range
          omega
        · have hCd : decide (v = d ∧ u <:+ x ∧ w <+: y) = false := by
            rw [decide_eq_false_iff_not]
            exact hC
          simp only [hCd, Bool.and_false]
          rw [if_neg hC]
          simp
    · -- disjointness: an occurrence inside x cannot sit at the aligned position
      intro k _ hcontra
      obtain ⟨h1, h2⟩ := hcontra
      rw [decide_eq_true_eq] at h1
      rw [Bool.and_eq_true, decide_eq_true_eq, decide_eq_true_eq] at h2
      obtain ⟨hk0, hC⟩ := h2
      subst hk0
      have h3 := h1.length_le
      rw [List.length_drop] at h3
      have h4 : u.length ≤ x.length := hC.2.1.length_le
      simp only [List.length_append] at h3
      omega
  rw [hzone1]
  omega

end ThreeD

namespace ThreeD

/-! ### Piece lists

The composed shader source is, structurally, an interleaving of fixed
digit-free text segments and decimal renderings of light indices.  A
`Piece` is either a fixed segment or a number slot; `renderP` flattens a
piece list to text.  `hitsA` walks a piece list and counts the aligned
occurrences of a pattern `u ++ natDigs i ++ w` (`countOcc_renderP` below
shows it equals `countOcc`). -/

inductive Piece where
  | str : List Char → Piece
  | num : Nat → Piece

def renderP : List Piece → List Char
  | [] => []
  | Piece.str s :: ps => s ++ renderP ps
  | Piece.num j :: ps => natDigs j ++ renderP ps

def okStr (s : List Char) : Bool := !s.isEmpty && s.all (fun c => !c.isDigit)

def okPieces : List Piece → Bool
  | [] => true
  | Piece.str s :: ps => okStr s && okPieces ps
  | Piece.num _ :: ps =>
    (match ps with
     | Piece.str _ :: _ => true
     | _ => false) && okPieces ps

def hitsA (u v w : List Char) : List Char → List Piece → Nat
  | _, [] => 0
  | acc, Piece.str s :: ps => hitsA u v w (acc ++ s) ps
  | acc, Piece.num j :: ps =>
    (if v = natDigs j ∧ u <:+ acc ∧ w <+: renderP ps then 1 else 0)
      + hitsA u v w [] ps

theorem okStr_ne_nil {s : List Char} (h : okStr s = true) : s ≠ [] := by
  simp only [okStr, Bool.and_eq_true, Bool.not_eq_true'] at h
  intro hs
  rw [hs] at h
  simp at h

theorem okStr_digitFree {s : List Char} (h : okStr s = true) :
    ∀ c ∈ s, c.isDigit = false := by
  simp only [okStr, Bool.and_eq_true, List.all_eq_true, Bool.not_eq_true'] at h
  exact h.2

theorem v_digit_mem {u v w : List Char} (hv : v ≠ [])
    (hvd : ∀ c ∈ v, c.isDigit = true) :
    ∃ c ∈ u ++ v ++ w, c.isDigit = true := by
  obtain ⟨c, hc⟩ := List.exists_mem_of_ne_nil v hv
  exact ⟨c, by simp [List.mem_append, hc], hvd c hc⟩

theorem countOcc_renderP_aux
    (u v w : List Char) (hu : u ≠ []) (hw : w ≠ [])
    (hud : ∀ c ∈ u, c.isDigit = false) (hwd : ∀ c ∈ w, c.isDigit = false)
    (hvd : ∀ c ∈ v, c.isDigit = true) (hv : v ≠ []) :
    ∀ (N : Nat) (ps : List Piece), ps.length ≤ N → okPieces ps = true →
      ∀ (x : List Char), x ≠ [] → (∀ c ∈ x, c.isDigit = false) →
      countOcc (u ++ v ++ w) (x ++ renderP ps) = hitsA u v w x ps := by
  intro N
  induction N with
  | zero =>
    intro ps hlen hok x hx hxd
    have h0 : ps = [] := List.length_eq_zero.mp (by omega)
    subst h0
    show countOcc (u ++ v ++ w) (x ++ []) = 0
    rw [List.append_nil]
    exact countOcc_eq_zero_of_digitFree (v_digit_mem hv hvd) hxd
  | succ N ih =>
    intro ps hlen hok x hx hxd
    cases ps with
    | nil =>
      show countOcc (u ++ v ++ w) (x ++ []) = 0
      rw [List.append_nil]
      exact countOcc_eq_zero_of_digitFree (v_digit_mem hv hvd) hxd
    | cons hd2 ps2 =>
      cases hd2 with
      | str s =>
        simp only [okPieces, Bool.and_eq_true] at hok
        obtain ⟨hs, hok2⟩ := hok
        show countOcc (u ++ v ++ w) (x ++ (s ++ renderP ps2))
          = hitsA u v w (x ++ s) ps2
        rw [← List.append_assoc]
        apply ih ps2 (by simp only [List.length_cons] at hlen; omega) hok2
        · intro hxs
          exact okStr_ne_nil hs (by
            have := congrArg List.length hxs
            simp only [List.length_append, List.length_nil] at this
            have h2 : s.length = 0 := by omega
            exact List.length_eq_zero.mp h2)
        · intro c hc
          rw [List.mem_append] at hc
          rcases hc with hc | hc
          · exact hxd c hc
          · exact okStr_digitFree hs c hc
      | num j =>
        cases ps2 with
        | nil => simp [okPieces] at hok
        | cons hd3 ps3 =>
          cases hd3 with
          | num j2 => simp [okPieces] at hok
          | str s =>
            simp only [okPieces, Bool.and_eq_true, true_and] at hok
            obtain ⟨hs, hok3⟩ := hok
            have hsne : s ≠ [] := okStr_ne_nil hs
            have hsd := okStr_digitFree hs
            have hyne : renderP (Piece.str s :: ps3) ≠ [] := by
              show s ++ renderP ps3 ≠ []
              intro hce
              have := congrArg List.length hce
              simp only [List.length_append, List.length_nil] at this
              have h2 : s.length = 0 := by omega
              exact hsne (List.length_eq_zero.mp h2)
            have hyh : ∀ c, (renderP (Piece.str s :: ps3))[0]? = some c →
                c.isDigit = false := by
              intro c hc
              show c.isDigit = false
              have hslen : 0 < s.length := List.length_pos.mpr hsne
              rw [show renderP (Piece.str s :: ps3) = s ++ renderP ps3 from rfl,
                List.getElem?_append_left hslen] at hc
              exact hsd c (List.getElem?_mem hc)
            show countOcc (u ++ v ++ w) (x ++ (natDigs j ++ renderP (Piece.str s :: ps3)))
              = (if v = natDigs j ∧ u <:+ x ∧ w <+: renderP (Piece.str s :: ps3)
                  then 1 else 0)
                + hitsA u v w [] (Piece.str s :: ps3)
            rw [← List.append_assoc]
            rw [countOcc_split u v w x (natDigs j) (renderP (Piece.str s :: ps3))
              hu hw hud hwd hvd (natDigs_isDigit j) (natDigs_ne_nil j) hxd hyh hyne]
            rw [countOcc_eq_zero_of_digitFree (v_digit_mem hv hvd) hxd]
            have hrec : countOcc (u ++ v ++ w) (renderP (Piece.str s :: ps3))
                = hitsA u v w s ps3 := by
              show countOcc (u ++ v ++ w) (s ++ renderP ps3) = hitsA u v w s ps3
              exact ih ps3 (by simp only [List.length_cons] at hlen; omega) hok3 s
                hsne hsd
            rw [hrec]
            show 0 + hitsA u v w s ps3 + _ = _ + hitsA u v w ([] ++ s) ps3
            rw [List.nil_append]
            omega

/-- Master counting lemma: occurrences of a pattern `u ++ v ++ w` (with
`u`, `w` nonempty digit-free and `v` a nonempty digit string) in a
rendered piece list are exactly the aligned hits counted by `hitsA`. -/
theorem countOcc_renderP_eq_hitsA
    (u v w : List Char) (hu : u ≠ []) (hw : w ≠ [])
    (hud : ∀ c ∈ u, c.isDigit = false) (hwd : ∀ c ∈ w, c.isDigit = false)
    (hvd : ∀ c ∈ v, c.isDigit = true) (hv : v ≠ [])
    (ps : List Piece) (hok : okPieces ps = true)
    (x : List Char) (hx : x ≠ []) (hxd : ∀ c ∈ x, c.isDigit = false) :
    countOcc (u ++ v ++ w) (x ++ renderP ps) = hitsA u v w x ps :=
  countOcc_renderP_aux u v w hu hw hud hwd hvd hv ps.length ps le_rfl hok x hx hxd

end ThreeD

namespace ThreeD

/-! ### The phong fragment-shader composer (`src/phong.rs`)

The named segment constants below are the literal text of the Rust
format strings in `phong_fragment_shader`, split at the `{}` slots and
at the digit groups `2` (of `sampler2D`), `140` (of `std140`) and
`4`/`3` (of `vec4`/`vec3`).  The chunk definitions reassemble them
verbatim (see the closed sanity checks further below). -/

def sgA : String := "\n                uniform sampler"
def sgDuB : String := "D directionalShadowMap"
def sgLay : String := ";\n                layout (std"
def sgDuD : String := ") uniform DirectionalLightUniform"
def sgDuE : String := "\n                \x7b\n                    DirectionalLight directionalLight"
def sgClose : String := ";\n                \x7d;"
def sgDfA : String := "\n                    color.rgb += calculate_directional_light(directionalLight"
def sgDfB : String := ", surface_color, position, normal,\n                        diffuse_intensity, specular_intensity, specular_power, directionalShadowMap"
def sgParen : String := ");"
def sgSuB : String := "D spotShadowMap"
def sgSuD : String := ") uniform SpotLightUniform"
def sgSuE : String := "\n                \x7b\n                    SpotLight spotLight"
def sgSfA : String := "\n                    color.rgb += calculate_spot_light(spotLight"
def sgSfB : String := ", surface_color, position, normal,\n                        diffuse_intensity, specular_intensity, specular_power, spotShadowMap"
def sgPuA : String := "\n                layout (std"
def sgPuB : String := ") uniform PointLightUniform"
def sgPuE : String := "\n                \x7b\n                    PointLight pointLight"
def sgPfA : String := "\n                    color.rgb += calculate_point_light(pointLight"
def sgPfB : String := ", surface_color, position, normal,\n                        diffuse_intensity, specular_intensity, specular_power);"
def wrapA : String := "\n                "
def wrapB : String := " // Directional lights\n                "
def wrapC : String := " // Spot lights\n                "
def wrapD1 : String := " // Point lights\n\n                void calculate_lighting(inout vec"
def wrapD2 : String := " color, vec"
def wrapD3 : String := " surface_color, vec"
def wrapD4 : String := " position, vec"
def wrapD5 : String := " normal,\n                    float diffuse_intensity, float specular_intensity, float specular_power)\n                \x7b\n                    "
def wrapE : String := " // Directional lights\n                    "
def wrapF : String := " // Spot lights\n                    "
def wrapG : String := " // Point lights\n                \x7d\n                "

/-- Text pushed for directional light `i` in the uniform-declaration loop. -/
def dirUniformChunk (i : Nat) : String :=
  "\n                uniform sampler2D directionalShadowMap" ++ natStr i
    ++ ";\n                layout (std140) uniform DirectionalLightUniform" ++ natStr i
    ++ "\n                \x7b\n                    DirectionalLight directionalLight" ++ natStr i
    ++ ";\n                \x7d;"

/-- Text pushed for directional light `i` in the lighting-function loop. -/
def dirFunChunk (i : Nat) : String :=
  "\n                    color.rgb += calculate_directional_light(directionalLight" ++ natStr i
    ++ ", surface_color, position, normal,\n                        diffuse_intensity, specular_intensity, specular_power, directionalShadowMap" ++ natStr i
    ++ ");"

/-- Text pushed for spot light `i` in the uniform-declaration loop. -/
def spotUniformChunk (i : Nat) : String :=
  "\n                uniform sampler2D spotShadowMap" ++ natStr i
    ++ ";\n                layout (std140) uniform SpotLightUniform" ++ natStr i
    ++ "\n                \x7b\n                    SpotLight spotLight" ++ natStr i
    ++ ";\n                \x7d;"

/-- Text pushed for spot light `i` in the lighting-function loop. -/
def spotFunChunk (i : Nat) : String :=
  "\n                    color.rgb += calculate_spot_light(spotLight" ++ natStr i
    ++ ", surface_color, position, normal,\n                        diffuse_intensity, specular_intensity, specular_power, spotShadowMap" ++ natStr i
    ++ ");"

/-- Text pushed for point light `i` in the uniform-declaration loop. -/
def pointUniformChunk (i : Nat) : String :=
  "\n                layout (std140) uniform PointLightUniform" ++ natStr i
    ++ "\n                \x7b\n                    PointLight pointLight" ++ natStr i
    ++ ";\n                \x7d;"

/-- Text pushed for point light `i` in the lighting-function loop. -/
def pointFunChunk (i : Nat) : String :=
  "\n                    color.rgb += calculate_point_light(pointLight" ++ natStr i
    ++ ", surface_color, position, normal,\n                        diffuse_intensity, specular_intensity, specular_power);"

/-- Modelled from the spec: contents of `include_str!("core/shared.frag")`,
the shared header utilities; the file is not among the provided sources,
so it is modelled as a fixed digit-free snippet. -/
def shared_frag : String := "// shared core utilities (modelled)"

/-- Modelled from the spec: contents of
`include_str!("phong/shaders/light_shared.frag")`, the shared
lighting-model utility code; modelled as a fixed digit-free snippet. -/
def light_shared_frag : String := "// shared lighting model utilities (modelled)"

/-- Modelled from the spec: contents of
`include_str!("phong/shaders/lighting.frag")`, the fixed epilogue;
modelled as a fixed digit-free snippet. -/
def lighting_frag : String := "// fixed lighting epilogue (modelled)"

/-- The middle `format!` wrapper of `phong_fragment_shader` with its six
slots filled. -/
def lightingWrapper (du su pu df sf pf : String) : String :=
  "\n                " ++ du
    ++ " // Directional lights\n                " ++ su
    ++ " // Spot lights\n                " ++ pu
    ++ " // Point lights\n\n                void calculate_lighting(inout vec4 color, vec3 surface_color, vec3 position, vec3 normal,\n                    float diffuse_intensity, float specular_intensity, float specular_power)\n                \x7b\n                    " ++ df
    ++ " // Directional lights\n                    " ++ sf
    ++ " // Spot lights\n                    " ++ pf
    ++ " // Point lights\n                \x7d\n                "

/-- Shallow embedding of `phong_fragment_shader` from `src/phong.rs`: the
push_str loops become `foldl` over `List.range`, and the outer
`format!("{0}\n{1}\n{2}\n{3}\n{4}", ..)` becomes the final concatenation. -/
def phong_fragment_shader (shader_addition : String)
    (directional_lights spot_lights point_lights : Nat) : String :=
  let dir_uniform := (List.range directional_lights).foldl
    (fun acc i => acc ++ dirUniformChunk i) ""
  let dir_fun := (List.range directional_lights).foldl
    (fun acc i => acc ++ dirFunChunk i) ""
  let spot_uniform := (List.range spot_lights).foldl
    (fun acc i => acc ++ spotUniformChunk i) ""
  let spot_fun := (List.range spot_lights).foldl
    (fun acc i => acc ++ spotFunChunk i) ""
  let point_uniform := (List.range point_lights).foldl
    (fun acc i => acc ++ pointUniformChunk i) ""
  let point_fun := (List.range point_lights).foldl
    (fun acc i => acc ++ pointFunChunk i) ""
  shared_frag ++ "\n" ++ light_shared_frag ++ "\n"
    ++ lightingWrapper dir_uniform spot_uniform point_uniform dir_fun spot_fun point_fun
    ++ "\n" ++ shader_addition ++ "\n" ++ lighting_frag

end ThreeD

namespace ThreeD

/-! ### Piece decomposition of the composed source -/

def duChunkP (i : Nat) : List Piece :=
  [Piece.str sgA.data, Piece.num 2, Piece.str sgDuB.data, Piece.num i,
   Piece.str sgLay.data, Piece.num 140, Piece.str sgDuD.data, Piece.num i,
   Piece.str sgDuE.data, Piece.num i, Piece.str sgClose.data]

def dfChunkP (i : Nat) : List Piece :=
  [Piece.str sgDfA.data, Piece.num i, Piece.str sgDfB.data, Piece.num i,
   Piece.str sgParen.data]

def suChunkP (i : Nat) : List Piece :=
  [Piece.str sgA.data, Piece.num 2, Piece.str sgSuB.data, Piece.num i,
   Piece.str sgLay.data, Piece.num 140, Piece.str sgSuD.data, Piece.num i,
   Piece.str sgSuE.data, Piece.num i, Piece.str sgClose.data]

def sfChunkP (i : Nat) : List Piece :=
  [Piece.str sgSfA.data, Piece.num i, Piece.str sgSfB.data, Piece.num i,
   Piece.str sgParen.data]

def puChunkP (i : Nat) : List Piece :=
  [Piece.str sgPuA.data, Piece.num 140, Piece.str sgPuB.data, Piece.num i,
   Piece.str sgPuE.data, Piece.num i, Piece.str sgClose.data]

def pfChunkP (i : Nat) : List Piece :=
  [Piece.str sgPfA.data, Piece.num i, Piece.str sgPfB.data]

def wrapDP : List Piece :=
  [Piece.str wrapD1.data, Piece.num 4, Piece.str wrapD2.data, Piece.num 3,
   Piece.str wrapD3.data, Piece.num 3, Piece.str wrapD4.data, Piece.num 3,
   Piece.str wrapD5.data]

def chunksP (g : Nat → List Piece) (s n : Nat) : List Piece :=
  ((List.range' s n).map g).flatten

def sourceHead : String := shared_frag ++ "\n" ++ light_shared_frag ++ "\n" ++ wrapA

def sourceTail (body : String) : String := wrapG ++ "\n" ++ body ++ "\n" ++ lighting_frag

def phongMid (body : String) (n1 n2 n3 : Nat) : List Piece :=
  chunksP duChunkP 0 n1 ++ ([Piece.str wrapB.data]
    ++ (chunksP suChunkP 0 n2 ++ ([Piece.str wrapC.data]
    ++ (chunksP puChunkP 0 n3 ++ (wrapDP
    ++ (chunksP dfChunkP 0 n1 ++ ([Piece.str wrapE.data]
    ++ (chunksP sfChunkP 0 n2 ++ ([Piece.str wrapF.data]
    ++ (chunksP pfChunkP 0 n3 ++ [Piece.str (sourceTail body).data]))))))))))

theorem natStr_data (i : Nat) : (natStr i).data = natDigs i := rfl

theorem renderP_append (a b : List Piece) :
    renderP (a ++ b) = renderP a ++ renderP b := by
  induction a with
  | nil => rfl
  | cons p a ih =>
    cases p with
    | str s =>
      show s ++ renderP (a ++ b) = (s ++ renderP a) ++ renderP b
      rw [ih, List.append_assoc]
    | num j =>
      show natDigs j ++ renderP (a ++ b) = (natDigs j ++ renderP a) ++ renderP b
      rw [ih, List.append_assoc]

theorem digs_two : natDigs 2 = "2".data := by decide

theorem digs_140 : natDigs 140 = "140".data := by decide

theorem digs_four : natDigs 4 = "4".data := by decide

theorem digs_three : natDigs 3 = "3".data := by decide

theorem renderP_duChunkP (i : Nat) :
    renderP (duChunkP i) = (dirUniformChunk i).data := by
  have hA : "\n                uniform sampler2D directionalShadowMap"
      = sgA ++ "2" ++ sgDuB := by decide
  have hB : ";\n                layout (std140) uniform DirectionalLightUniform"
      = sgLay ++ "140" ++ sgDuD := by decide
  have hE : "\n                \x7b\n                    DirectionalLight directionalLight"
      = sgDuE := by decide
  have hF : ";\n                \x7d;" = sgClose := by decide
  simp only [dirUniformChunk, duChunkP, renderP, hA, hB, hE, hF,
    String.data_append, natStr_data, digs_two, digs_140, List.append_assoc,
    List.append_nil]

theorem renderP_dfChunkP (i : Nat) :
    renderP (dfChunkP i) = (dirFunChunk i).data := by
  have hA : "\n                    color.rgb += calculate_directional_light(directionalLight"
      = sgDfA := by decide
  have hB : ", surface_color, position, normal,\n                        diffuse_intensity, specular_intensity, specular_power, directionalShadowMap"
      = sgDfB := by decide
  have hC : ");" = sgParen := by decide
  simp only [dirFunChunk, dfChunkP, renderP, hA, hB, hC, String.data_append,
    natStr_data, List.append_assoc, List.append_nil]

theorem renderP_suChunkP (i : Nat) :
    renderP (suChunkP i) = (spotUniformChunk i).data := by
  have hA : "\n                uniform sampler2D spotShadowMap"
      = sgA ++ "2" ++ sgSuB := by decide
  have hB : ";\n                layout (std140) uniform SpotLightUniform"
      = sgLay ++ "140" ++ sgSuD := by decide
  have hE : "\n                \x7b\n                    SpotLight spotLight"
      = sgSuE := by decide
  have hF : ";\n                \x7d;" = sgClose := by decide
  simp only [spotUniformChunk, suChunkP, renderP, hA, hB, hE, hF,
    String.data_append, natStr_data, digs_two, digs_140, List.append_assoc,
    List.append_nil]

theorem renderP_sfChunkP (i : Nat) :
    renderP (sfChunkP i) = (spotFunChunk i).data := by
  have hA : "\n                    color.rgb += calculate_spot_light(spotLight"
      = sgSfA := by decide
  have hB : ", surface_color, position, normal,\n                        diffuse_intensity, specular_intensity, specular_power, spotShadowMap"
      = sgSfB := by decide
  have hC : ");" = sgParen := by decide
  simp only [spotFunChunk, sfChunkP, renderP, hA, hB, hC, String.data_append,
    natStr_data, List.append_assoc, List.append_nil]

theorem renderP_puChunkP (i : Nat) :
    renderP (puChunkP i) = (pointUniformChunk i).data := by
  have hA : "\n                layout (std140) uniform PointLightUniform"
      = sgPuA ++ "140" ++ sgPuB := by decide
  have hE : "\n                \x7b\n                    PointLight pointLight"
      = sgPuE := by decide
  have hF : ";\n                \x7d;" = sgClose := by decide
  simp only [pointUniformChunk, puChunkP, renderP, hA, hE, hF,
    String.data_append, natStr_data, digs_140, List.append_assoc,
    List.append_nil]

theorem renderP_pfChunkP (i : Nat) :
    renderP (pfChunkP i) = (pointFunChunk i).data := by
  have hA : "\n                    color.rgb += calculate_point_light(pointLight"
      = sgPfA := by decide
  have hB : ", surface_color, position, normal,\n                        diffuse_intensity, specular_intensity, specular_power);"
      = sgPfB := by decide
  simp only [pointFunChunk, pfChunkP, renderP, hA, hB, String.data_append,
    natStr_data, List.append_assoc, List.append_nil]

theorem renderP_wrapDP :
    renderP wrapDP
      = (" // Point lights\n\n                void calculate_lighting(inout vec4 color, vec3 surface_color, vec3 position, vec3 normal,\n                    float diffuse_intensity, float specular_intensity, float specular_power)\n                \x7b\n                    " : String).data := by
  decide

theorem foldl_append_data (f : Nat → String) (g : Nat → List Piece)
    (h : ∀ i, renderP (g i) = (f i).data) :
    ∀ (n s : Nat) (c : String),
      ((List.range' s n).foldl (fun acc i => acc ++ f i) c).data
        = c.data ++ renderP (chunksP g s n) := by
  intro n
  induction n with
  | zero =>
    intro s c
    simp [chunksP, List.range'_zero, renderP]
  | succ n ih =>
    intro s c
    rw [List.range'_succ]
    show ((List.range' (s + 1) n).foldl (fun acc i => acc ++ f i) (c ++ f s)).data = _
    rw [ih (s + 1) (c ++ f s)]
    have hch : chunksP g s (n + 1) = g s ++ chunksP g (s + 1) n := by
      simp [chunksP, List.range'_succ, List.flatten_cons]
    rw [hch, renderP_append, String.data_append, ← h s, List.append_assoc]

end ThreeD

namespace ThreeD

theorem listAppendEq {α : Type} (a b : List α) : a.append b = a ++ b := rfl

/-- Render agreement: the string built by `phong_fragment_shader` is the
rendering of its piece decomposition. -/
theorem phong_fragment_shader_data (body : String) (n1 n2 n3 : Nat) :
    (phong_fragment_shader body n1 n2 n3).data
      = sourceHead.data ++ renderP (phongMid body n1 n2 n3) := by
  simp only [phong_fragment_shader, lightingWrapper, sourceHead, sourceTail,
    phongMid, List.range_eq_range', String.data_append]
  rw [foldl_append_data dirUniformChunk duChunkP renderP_duChunkP n1 0 "",
    foldl_append_data dirFunChunk dfChunkP renderP_dfChunkP n1 0 "",
    foldl_append_data spotUniformChunk suChunkP renderP_suChunkP n2 0 "",
    foldl_append_data spotFunChunk sfChunkP renderP_sfChunkP n2 0 "",
    foldl_append_data pointUniformChunk puChunkP renderP_puChunkP n3 0 "",
    foldl_append_data pointFunChunk pfChunkP renderP_pfChunkP n3 0 ""]
  rw [show ("" : String).data = [] from rfl]
  simp only [List.nil_append]
  simp only [renderP_append, renderP, String.data_append, wrapA, wrapB, wrapC,
    wrapD1, wrapD2, wrapD3, wrapD4, wrapD5, wrapE, wrapF, wrapG, natStr_data,
    digs_four, digs_three, listAppendEq, List.append_assoc, List.append_nil,
    List.nil_append, List.cons_append, List.singleton_append]

theorem strEnd_okPieces_facts : True := trivial

def strEnd : List Piece → Bool
  | [] => true
  | [Piece.str _] => true
  | [Piece.num _] => false
  | _ :: ps => strEnd ps

theorem strEnd_cons_cons (p q : Piece) (l : List Piece) :
    strEnd (p :: q :: l) = strEnd (q :: l) := by
  cases p <;> rfl

theorem okPieces_append : ∀ (a b : List Piece), okPieces a = true →
    okPieces b = true → strEnd a = true → okPieces (a ++ b) = true := by
  intro a
  induction a with
  | nil =>
    intro b _ hb _
    exact hb
  | cons p a ih =>
    intro b hok hb hend
    cases p with
    | str s =>
      have h1 : okStr s = true ∧ okPieces a = true := by
        simpa [okPieces, Bool.and_eq_true] using hok
      cases a with
      | nil =>
        show okPieces (Piece.str s :: ([] ++ b)) = true
        rw [List.nil_append]
        have : okPieces (Piece.str s :: b) = (okStr s && okPieces b) := rfl
        rw [this, Bool.and_eq_true]
        exact ⟨h1.1, hb⟩
      | cons q a2 =>
        have h2 : okPieces ((q :: a2) ++ b) = true := by
          apply ih b h1.2 hb
          have := strEnd_cons_cons (Piece.str s) q a2
          rw [← this]
          exact hend
        show okPieces (Piece.str s :: ((q :: a2) ++ b)) = true
        have h3 : okPieces (Piece.str s :: ((q :: a2) ++ b))
            = (okStr s && okPieces ((q :: a2) ++ b)) := rfl
        rw [h3, Bool.and_eq_true]
        exact ⟨h1.1, h2⟩
    | num j =>
      cases a with
      | nil =>
        exact absurd hend (by simp [strEnd])
      | cons q a2 =>
        cases q with
        | num j2 =>
          exfalso
          simp [okPieces] at hok
        | str s =>
          have h2 : okPieces (Piece.str s :: a2) = true := by
            simpa [okPieces] using hok
          have h3 : okPieces ((Piece.str s :: a2) ++ b) = true := by
            apply ih b h2 hb
            have := strEnd_cons_cons (Piece.num j) (Piece.str s) a2
            rw [← this]
            exact hend
          show okPieces (Piece.num j :: ((Piece.str s :: a2) ++ b)) = true
          have h4 : okPieces (Piece.num j :: ((Piece.str s :: a2) ++ b))
              = (true && okPieces ((Piece.str s :: a2) ++ b)) := rfl
          rw [h4, Bool.and_eq_true]
          exact ⟨rfl, h3⟩

theorem strEnd_append (a b : List Piece) (hb : strEnd b = true) (hbne : b ≠ []) :
    strEnd (a ++ b) = true := by
  induction a with
  | nil => exact hb
  | cons p a ih =>
    show strEnd (p :: (a ++ b)) = true
    cases ha2 : a ++ b with
    | nil => exact absurd (List.append_eq_nil.mp ha2).2 hbne
    | cons q l =>
      rw [strEnd_cons_cons, ← ha2]
      exact ih

theorem strEnd_append_both (a b : List Piece) (ha : strEnd a = true)
    (hb : strEnd b = true) : strEnd (a ++ b) = true := by
  by_cases hbe : b = []
  · subst hbe
    rw [List.append_nil]
    exact ha
  · exact strEnd_append a b hb hbe

theorem okPieces_duChunkP (i : Nat) : okPieces (duChunkP i) = true := rfl

theorem okPieces_dfChunkP (i : Nat) : okPieces (dfChunkP i) = true := rfl

theorem okPieces_suChunkP (i : Nat) : okPieces (suChunkP i) = true := rfl

theorem okPieces_sfChunkP (i : Nat) : okPieces (sfChunkP i) = true := rfl

theorem okPieces_puChunkP (i : Nat) : okPieces (puChunkP i) = true := rfl

theorem okPieces_pfChunkP (i : Nat) : okPieces (pfChunkP i) = true := rfl

theorem strEnd_duChunkP (i : Nat) : strEnd (duChunkP i) = true := rfl

theorem strEnd_dfChunkP (i : Nat) : strEnd (dfChunkP i) = true := rfl

theorem strEnd_suChunkP (i : Nat) : strEnd (suChunkP i) = true := rfl

theorem strEnd_sfChunkP (i : Nat) : strEnd (sfChunkP i) = true := rfl

theorem strEnd_puChunkP (i : Nat) : strEnd (puChunkP i) = true := rfl

theorem strEnd_pfChunkP (i : Nat) : strEnd (pfChunkP i) = true := rfl

theorem chunksP_ok (g : Nat → List Piece) (hok : ∀ i, okPieces (g i) = true)
    (hend : ∀ i, strEnd (g i) = true) :
    ∀ n s, okPieces (chunksP g s n) = true ∧ strEnd (chunksP g s n) = true := by
  intro n
  induction n with
  | zero =>
    intro s
    constructor <;> simp [chunksP, List.range'_zero]
    · rfl
    · rfl
  | succ n ih =>
    intro s
    have hch : chunksP g s (n + 1) = g s ++ chunksP g (s + 1) n := by
      simp [chunksP, List.range'_succ, List.flatten_cons]
    rw [hch]
    refine ⟨okPieces_append _ _ (hok s) (ih (s + 1)).1 (hend s), ?_⟩
    exact strEnd_append_both _ _ (hend s) (ih (s + 1)).2

end ThreeD

namespace ThreeD

/-! ### Hit counting through the chunk structure -/

def uDirS : List Char := "D directionalShadowMap".data

def uDirB : List Char := "m DirectionalLightUniform".data

def uSpotS : List Char := "D spotShadowMap".data

def uSpotB : List Char := "m SpotLightUniform".data

def uPointB : List Char := "m PointLightUniform".data

def uPointS : List Char := "D pointShadowMap".data

theorem pfx_extend {w a : List Char} (b : List Char) (h : w <+: a) :
    w <+: a ++ b :=
  h.trans ( List.prefix_append a b)

theorem pfx_renderP_str {w s : List Char} (ps : List Piece) (h : w <+: s) :
    w <+: renderP (Piece.str s :: ps) := by
  show w <+: s ++ renderP ps
  exact pfx_extend (renderP ps) h

theorem hit_zero_sfx {u v d : List Char} {W : Prop} [Decidable W]
    (acc B : List Char) (hlen : u.length ≤ B.length) (hnot : ¬ u <:+ B) :
    (if v = d ∧ u <:+ acc ++ B ∧ W then 1 else 0) = 0 := by
  rw [if_neg]
  rintro ⟨-, h2, -⟩
  rw [sfx_localize acc B hlen] at h2
  exact hnot h2

theorem hit_zero_sfx2 {u v d : List Char} {W : Prop} [Decidable W]
    (B : List Char) (hnot : ¬ u <:+ B) :
    (if v = d ∧ u <:+ B ∧ W then 1 else 0) = 0 := by
  rw [if_neg]
  rintro ⟨-, h2, -⟩
  exact hnot h2

theorem hit_one_eq {i j : Nat} {u : List Char} {W : Prop} [Decidable W]
    (B : List Char) (hsfx : u <:+ B) (hW : W) :
    (if natDigs i = natDigs j ∧ u <:+ B ∧ W then 1 else 0)
      = if i = j then 1 else 0 := by
  by_cases h : i = j
  · subst h
    rw [if_pos ⟨rfl, hsfx, hW⟩, if_pos rfl]
  · rw [if_neg, if_neg h]
    rintro ⟨h1, -, -⟩
    exact h (natDigs_inj.mp h1)

/-- Passing a directional uniform chunk contributes no hit when `u` matches
none of its interior contexts. -/
theorem duChunkP_pass (u v w : List Char) (j : Nat) (acc : List Char)
    (rest : List Piece)
    (h1 : u.length ≤ sgA.data.length) (h2 : ¬ u <:+ sgA.data)
    (h3 : ¬ u <:+ sgDuB.data) (h4 : ¬ u <:+ sgLay.data)
    (h5 : ¬ u <:+ sgDuD.data) (h6 : ¬ u <:+ sgDuE.data) :
    hitsA u v w acc (duChunkP j ++ rest) = hitsA u v w sgClose.data rest := by
  simp only [duChunkP, List.cons_append, List.nil_append, listAppendEq, hitsA]
  rw [hit_zero_sfx acc sgA.data h1 h2, hit_zero_sfx2 sgDuB.data h3,
    hit_zero_sfx2 sgLay.data h4, hit_zero_sfx2 sgDuD.data h5,
    hit_zero_sfx2 sgDuE.data h6]
  omega

theorem suChunkP_pass (u v w : List Char) (j : Nat) (acc : List Char)
    (rest : List Piece)
    (h1 : u.length ≤ sgA.data.length) (h2 : ¬ u <:+ sgA.data)
    (h3 : ¬ u <:+ sgSuB.data) (h4 : ¬ u <:+ sgLay.data)
    (h5 : ¬ u <:+ sgSuD.data) (h6 : ¬ u <:+ sgSuE.data) :
    hitsA u v w acc (suChunkP j ++ rest) = hitsA u v w sgClose.data rest := by
  simp only [suChunkP, List.cons_append, List.nil_append, listAppendEq, hitsA]
  rw [hit_zero_sfx acc sgA.data h1 h2, hit_zero_sfx2 sgSuB.data h3,
    hit_zero_sfx2 sgLay.data h4, hit_zero_sfx2 sgSuD.data h5,
    hit_zero_sfx2 sgSuE.data h6]
  omega

theorem puChunkP_pass (u v w : List Char) (j : Nat) (acc : List Char)
    (rest : List Piece)
    (h1 : u.length ≤ sgPuA.data.length) (h2 : ¬ u <:+ sgPuA.data)
    (h3 : ¬ u <:+ sgPuB.data) (h4 : ¬ u <:+ sgPuE.data) :
    hitsA u v w acc (puChunkP j ++ rest) = hitsA u v w sgClose.data rest := by
  simp only [puChunkP, List.cons_append, List.nil_append, listAppendEq, hitsA]
  rw [hit_zero_sfx acc sgPuA.data h1 h2, hit_zero_sfx2 sgPuB.data h3,
    hit_zero_sfx2 sgPuE.data h4]
  omega

theorem dfChunkP_pass (u v w : List Char) (j : Nat) (acc : List Char)
    (rest : List Piece)
    (h1 : u.length ≤ sgDfA.data.length) (h2 : ¬ u <:+ sgDfA.data)
    (h3 : ¬ u <:+ sgDfB.data) :
    hitsA u v w acc (dfChunkP j ++ rest) = hitsA u v w sgParen.data rest := by
  simp only [dfChunkP, List.cons_append, List.nil_append, listAppendEq, hitsA]
  rw [hit_zero_sfx acc sgDfA.data h1 h2, hit_zero_sfx2 sgDfB.data h3]
  omega

theorem sfChunkP_pass (u v w : List Char) (j : Nat) (acc : List Char)
    (rest : List Piece)
    (h1 : u.length ≤ sgSfA.data.length) (h2 : ¬ u <:+ sgSfA.data)
    (h3 : ¬ u <:+ sgSfB.data) :
    hitsA u v w acc (sfChunkP j ++ rest) = hitsA u v w sgParen.data rest := by
  simp only [sfChunkP, List.cons_append, List.nil_append, listAppendEq, hitsA]
  rw [hit_zero_sfx acc sgSfA.data h1 h2, hit_zero_sfx2 sgSfB.data h3]
  omega

theorem pfChunkP_pass (u v w : List Char) (j : Nat) (acc : List Char)
    (rest : List Piece)
    (h1 : u.length ≤ sgPfA.data.length) (h2 : ¬ u <:+ sgPfA.data) :
    hitsA u v w acc (pfChunkP j ++ rest) = hitsA u v w sgPfB.data rest := by
  simp only [pfChunkP, List.cons_append, List.nil_append, listAppendEq, hitsA]
  rw [hit_zero_sfx acc sgPfA.data h1 h2]
  omega

theorem wrapDP_pass (u v w : List Char) (acc : List Char) (rest : List Piece)
    (h1 : u.length ≤ wrapD1.data.length) (h2 : ¬ u <:+ wrapD1.data)
    (h3 : ¬ u <:+ wrapD2.data) (h4 : ¬ u <:+ wrapD3.data)
    (h5 : ¬ u <:+ wrapD4.data) :
    hitsA u v w acc (wrapDP ++ rest) = hitsA u v w wrapD5.data rest := by
  simp only [wrapDP, List.cons_append, List.nil_append, listAppendEq, hitsA]
  rw [hit_zero_sfx acc wrapD1.data h1 h2, hit_zero_sfx2 wrapD2.data h3,
    hit_zero_sfx2 wrapD3.data h4, hit_zero_sfx2 wrapD4.data h5]
  omega

/-- The directional uniform chunk for index `j` contains exactly one
aligned occurrence context of the directional sampler declaration, hit
when `i = j`. -/
theorem duChunkP_dirS (i j : Nat) (acc : List Char) (rest : List Piece) :
    hitsA uDirS (natDigs i) [';'] acc (duChunkP j ++ rest)
      = (if i = j then 1 else 0) + hitsA uDirS (natDigs i) [';'] sgClose.data rest := by
  simp only [duChunkP, List.cons_append, List.nil_append, listAppendEq, hitsA]
  rw [hit_zero_sfx acc sgA.data (by decide) (by decide),
    hit_one_eq sgDuB.data (by decide) (pfx_renderP_str _ (by decide)),
    hit_zero_sfx2 sgLay.data (by decide),
    hit_zero_sfx2 sgDuD.data (by decide),
    hit_zero_sfx2 sgDuE.data (by decide)]
  omega

/-- The directional uniform chunk for index `j` declares exactly one
uniform block context, hit when `i = j`. -/
theorem duChunkP_dirB (i j : Nat) (acc : List Char) (rest : List Piece) :
    hitsA uDirB (natDigs i) ['\n'] acc (duChunkP j ++ rest)
      = (if i = j then 1 else 0) + hitsA uDirB (natDigs i) ['\n'] sgClose.data rest := by
  simp only [duChunkP, List.cons_append, List.nil_append, listAppendEq, hitsA]
  rw [hit_zero_sfx acc sgA.data (by decide) (by decide),
    hit_zero_sfx2 sgDuB.data (by decide),
    hit_zero_sfx2 sgLay.data (by decide),
    hit_one_eq sgDuD.data (by decide) (pfx_renderP_str _ (by decide)),
    hit_zero_sfx2 sgDuE.data (by decide)]
  omega

theorem suChunkP_spotS (i j : Nat) (acc : List Char) (rest : List Piece) :
    hitsA uSpotS (natDigs i) [';'] acc (suChunkP j ++ rest)
      = (if i = j then 1 else 0) + hitsA uSpotS (natDigs i) [';'] sgClose.data rest := by
  simp only [suChunkP, List.cons_append, List.nil_append, listAppendEq, hitsA]
  rw [hit_zero_sfx acc sgA.data (by decide) (by decide),
    hit_one_eq sgSuB.data (by decide) (pfx_renderP_str _ (by decide)),
    hit_zero_sfx2 sgLay.data (by decide),
    hit_zero_sfx2 sgSuD.data (by decide),
    hit_zero_sfx2 sgSuE.data (by decide)]
  omega

theorem suChunkP_spotB (i j : Nat) (acc : List Char) (rest : List Piece) :
    hitsA uSpotB (natDigs i) ['\n'] acc (suChunkP j ++ rest)
      = (if i = j then 1 else 0) + hitsA uSpotB (natDigs i) ['\n'] sgClose.data rest := by
  simp only [suChunkP, List.cons_append, List.nil_append, listAppendEq, hitsA]
  rw [hit_zero_sfx acc sgA.data (by decide) (by decide),
    hit_zero_sfx2 sgSuB.data (by decide),
    hit_zero_sfx2 sgLay.data (by decide),
    hit_one_eq sgSuD.data (by decide) (pfx_renderP_str _ (by decide)),
    hit_zero_sfx2 sgSuE.data (by decide)]
  omega

theorem puChunkP_pointB (i j : Nat) (acc : List Char) (rest : List Piece) :
    hitsA uPointB (natDigs i) ['\n'] acc (puChunkP j ++ rest)
      = (if i = j then 1 else 0) + hitsA uPointB (natDigs i) ['\n'] sgClose.data rest := by
  simp only [puChunkP, List.cons_append, List.nil_append, listAppendEq, hitsA]
  rw [hit_zero_sfx acc sgPuA.data (by decide) (by decide),
    hit_one_eq sgPuB.data (by decide) (pfx_renderP_str _ (by decide)),
    hit_zero_sfx2 sgPuE.data (by decide)]
  omega

end ThreeD

namespace ThreeD

theorem chunksP_succ (g : Nat → List Piece) (s n : Nat) :
    chunksP g s (n + 1) = g s ++ chunksP g (s + 1) n := by
  simp [chunksP, List.range'_succ, List.flatten_cons]

theorem if_split_interval (i s n : Nat) :
    (if i = s then 1 else 0) + (if s + 1 ≤ i ∧ i < s + 1 + n then 1 else 0)
      = if s ≤ i ∧ i < s + (n + 1) then 1 else 0 := by
  by_cases h1 : i = s
  · subst h1
    rw [if_pos rfl, if_neg (by omega), if_pos (by omega)]
  · rw [if_neg h1]
    by_cases h2 : s + 1 ≤ i ∧ i < s + 1 + n
    · rw [if_pos h2, if_pos (by omega)]
    · rw [if_neg h2, if_neg (by omega)]

/-- A section whose chunks each score one aligned hit at their own index
contributes exactly one hit when `i` lies in the index interval. -/
theorem hitsA_sect_hit (u w : List Char) (i : Nat) (g : Nat → List Piece)
    (tail : List Char)
    (hchunk : ∀ (j : Nat) (acc : List Char) (rest : List Piece),
      hitsA u (natDigs i) w acc (g j ++ rest)
        = (if i = j then 1 else 0) + hitsA u (natDigs i) w tail rest) :
    ∀ (n s : Nat) (acc : List Char) (rest : List Piece),
      hitsA u (natDigs i) w acc (chunksP g s n ++ rest)
        = (if s ≤ i ∧ i < s + n then 1 else 0)
          + hitsA u (natDigs i) w (if n = 0 then acc else tail) rest := by
  intro n
  induction n with
  | zero =>
    intro s acc rest
    rw [if_pos rfl, if_neg (by omega)]
    have h0 : chunksP g s 0 = [] := by simp [chunksP, List.range'_zero]
    rw [h0, List.nil_append]
    omega
  | succ n ih =>
    intro s acc rest
    rw [chunksP_succ, List.append_assoc, hchunk s acc, ih (s + 1) tail rest]
    rw [if_neg (Nat.succ_ne_zero n)]
    have hexit : (if n = 0 then tail else tail) = tail := by
      by_cases h : n = 0 <;> simp [h]
    rw [hexit, ← Nat.add_assoc, if_split_interval]

/-- A section whose chunks score no hit is transparent to the count. -/
theorem hitsA_sect_pass (u v w : List Char) (g : Nat → List Piece)
    (tail : List Char)
    (hchunk : ∀ (j : Nat) (acc : List Char) (rest : List Piece),
      hitsA u v w acc (g j ++ rest) = hitsA u v w tail rest) :
    ∀ (n s : Nat) (acc : List Char) (rest : List Piece),
      hitsA u v w acc (chunksP g s n ++ rest)
        = hitsA u v w (if n = 0 then acc else tail) rest := by
  intro n
  induction n with
  | zero =>
    intro s acc rest
    rw [if_pos rfl]
    have h0 : chunksP g s 0 = [] := by simp [chunksP, List.range'_zero]
    rw [h0, List.nil_append]
  | succ n ih =>
    intro s acc rest
    rw [chunksP_succ, List.append_assoc, hchunk s acc, ih (s + 1) tail rest]
    rw [if_neg (Nat.succ_ne_zero n)]
    by_cases h : n = 0 <;> simp [h]

end ThreeD

namespace ThreeD

theorem isEmpty_false_of_ne {l : List Char} (h : l ≠ []) : l.isEmpty = false := by
  cases l with
  | nil => exact absurd rfl h
  | cons a t => rfl

theorem sourceTail_ne_nil (body : String) : (sourceTail body).data ≠ [] := by
  simp only [sourceTail, String.data_append]
  intro hcontr
  have hlen := congrArg List.length hcontr
  simp only [List.length_append, List.length_nil] at hlen
  have hw : 0 < wrapG.data.length := by decide
  omega

theorem sourceTail_digitFree (body : String)
    (hb : ∀ c ∈ body.data, c.isDigit = false) :
    ∀ c ∈ (sourceTail body).data, c.isDigit = false := by
  intro c hc
  simp only [sourceTail, String.data_append, List.mem_append] at hc
  have hwg : ∀ c ∈ wrapG.data, c.isDigit = false := by decide
  have hnl : ∀ c ∈ ("\n" : String).data, c.isDigit = false := by decide
  have hlf : ∀ c ∈ lighting_frag.data, c.isDigit = false := by decide
  rcases hc with ((((hc | hc) | hc) | hc) | hc)
  · exact hwg c hc
  · exact hnl c hc
  · exact hb c hc
  · exact hnl c hc
  · exact hlf c hc

theorem okStr_sourceTail (body : String)
    (hb : ∀ c ∈ body.data, c.isDigit = false) :
    okStr (sourceTail body).data = true := by
  rw [okStr, Bool.and_eq_true]
  constructor
  · rw [Bool.not_eq_true', isEmpty_false_of_ne (sourceTail_ne_nil body)]
  · rw [List.all_eq_true]
    intro c hc
    rw [Bool.not_eq_true']
    exact sourceTail_digitFree body hb c hc

theorem sourceHead_ne_nil : sourceHead.data ≠ [] := by decide

theorem sourceHead_digitFree : ∀ c ∈ sourceHead.data, c.isDigit = false := by
  decide

theorem okPieces_wrapDP : okPieces wrapDP = true := rfl

theorem strEnd_wrapDP : strEnd wrapDP = true := rfl

theorem okPieces_phongMid (body : String)
    (hb : ∀ c ∈ body.data, c.isDigit = false) (n1 n2 n3 : Nat) :
    okPieces (phongMid body n1 n2 n3) = true := by
  have hTail : okPieces [Piece.str (sourceTail body).data] = true := by
    show (okStr (sourceTail body).data && true) = true
    rw [okStr_sourceTail body hb]
    rfl
  have hB : okPieces [Piece.str wrapB.data] = true := rfl
  have hC : okPieces [Piece.str wrapC.data] = true := rfl
  have hE : okPieces [Piece.str wrapE.data] = true := rfl
  have hF : okPieces [Piece.str wrapF.data] = true := rfl
  have hsB : strEnd [Piece.str wrapB.data] = true := rfl
  have hsC : strEnd [Piece.str wrapC.data] = true := rfl
  have hsE : strEnd [Piece.str wrapE.data] = true := rfl
  have hsF : strEnd [Piece.str wrapF.data] = true := rfl
  have hdu := chunksP_ok duChunkP okPieces_duChunkP strEnd_duChunkP n1 0
  have hsu := chunksP_ok suChunkP okPieces_suChunkP strEnd_suChunkP n2 0
  have hpu := chunksP_ok puChunkP okPieces_puChunkP strEnd_puChunkP n3 0
  have hdf := chunksP_ok dfChunkP okPieces_dfChunkP strEnd_dfChunkP n1 0
  have hsf := chunksP_ok sfChunkP okPieces_sfChunkP strEnd_sfChunkP n2 0
  have hpf := chunksP_ok pfChunkP okPieces_pfChunkP strEnd_pfChunkP n3 0
  rw [phongMid]
  apply okPieces_append _ _ hdu.1 _ hdu.2
  apply okPieces_append _ _ hB _ hsB
  apply okPieces_append _ _ hsu.1 _ hsu.2
  apply okPieces_append _ _ hC _ hsC
  apply okPieces_append _ _ hpu.1 _ hpu.2
  apply okPieces_append _ _ okPieces_wrapDP _ strEnd_wrapDP
  apply okPieces_append _ _ hdf.1 _ hdf.2
  apply okPieces_append _ _ hE _ hsE
  apply okPieces_append _ _ hsf.1 _ hsf.2
  apply okPieces_append _ _ hF _ hsF
  exact okPieces_append _ _ hpf.1 hTail hpf.2

end ThreeD

namespace ThreeD

theorem countOcc_phong_dirS (body : String)
    (hb : ∀ c ∈ body.data, c.isDigit = false) (n1 n2 n3 i : Nat) :
    countOcc (uDirS ++ natDigs i ++ [';'])
      (phong_fragment_shader body n1 n2 n3).data = if i < n1 then 1 else 0 := by
  rw [phong_fragment_shader_data, countOcc_renderP_eq_hitsA uDirS (natDigs i) [';']
    (by decide) (by decide) (by decide) (by decide) (natDigs_isDigit i)
    (natDigs_ne_nil i) (phongMid body n1 n2 n3)
    (okPieces_phongMid body hb n1 n2 n3) sourceHead.data sourceHead_ne_nil
    sourceHead_digitFree]
  rw [phongMid]
  rw [hitsA_sect_hit uDirS [';'] i duChunkP sgClose.data
    (fun j => duChunkP_dirS i j) n1 0]
  simp only [List.singleton_append, List.nil_append, listAppendEq, hitsA]
  rw [hitsA_sect_pass uDirS (natDigs i) [';'] suChunkP sgClose.data
    (fun j acc rest => suChunkP_pass uDirS (natDigs i) [';'] j acc rest
      (by decide) (by decide) (by decide) (by decide) (by decide) (by decide)) n2 0]
  simp only [List.singleton_append, List.nil_append, listAppendEq, hitsA]
  rw [hitsA_sect_pass uDirS (natDigs i) [';'] puChunkP sgClose.data
    (fun j acc rest => puChunkP_pass uDirS (natDigs i) [';'] j acc rest
      (by decide) (by decide) (by decide) (by decide)) n3 0]
  rw [wrapDP_pass uDirS (natDigs i) [';'] _ _
    (by decide) (by decide) (by decide) (by decide) (by decide)]
  rw [hitsA_sect_pass uDirS (natDigs i) [';'] dfChunkP sgParen.data
    (fun j acc rest => dfChunkP_pass uDirS (natDigs i) [';'] j acc rest
      (by decide) (by decide) (by decide)) n1 0]
  simp only [List.singleton_append, List.nil_append, listAppendEq, hitsA]
  rw [hitsA_sect_pass uDirS (natDigs i) [';'] sfChunkP sgParen.data
    (fun j acc rest => sfChunkP_pass uDirS (natDigs i) [';'] j acc rest
      (by decide) (by decide) (by decide)) n2 0]
  simp only [List.singleton_append, List.nil_append, listAppendEq, hitsA]
  rw [hitsA_sect_pass uDirS (natDigs i) [';'] pfChunkP sgPfB.data
    (fun j acc rest => pfChunkP_pass uDirS (natDigs i) [';'] j acc rest
      (by decide) (by decide)) n3 0]
  simp only [hitsA]
  have hiff : (0 ≤ i ∧ i < 0 + n1) ↔ i < n1 := by omega
  rw [if_congr hiff rfl rfl]
  omega

end ThreeD

namespace ThreeD

theorem countOcc_phong_dirB (body : String)
    (hb : ∀ c ∈ body.data, c.isDigit = false) (n1 n2 n3 i : Nat) :
    countOcc (uDirB ++ natDigs i ++ ['\n'])
      (phong_fragment_shader body n1 n2 n3).data = if i < n1 then 1 else 0 := by
  rw [phong_fragment_shader_data, countOcc_renderP_eq_hitsA uDirB (natDigs i) ['\n']
    (by decide) (by decide) (by decide) (by decide) (natDigs_isDigit i)
    (natDigs_ne_nil i) (phongMid body n1 n2 n3)
    (okPieces_phongMid body hb n1 n2 n3) sourceHead.data sourceHead_ne_nil
    sourceHead_digitFree]
  rw [phongMid]
  rw [hitsA_sect_hit uDirB ['\n'] i duChunkP sgClose.data
    (fun j => duChunkP_dirB i j) n1 0]
  simp only [List.singleton_append, List.nil_append, listAppendEq, hitsA]
  rw [hitsA_sect_pass uDirB (natDigs i) ['\n'] suChunkP sgClose.data
    (fun j acc rest => suChunkP_pass uDirB (natDigs i) ['\n'] j acc rest
      (by decide) (by decide) (by decide) (by decide) (by decide) (by decide)) n2 0]
  simp only [List.singleton_append, List.nil_append, listAppendEq, hitsA]
  rw [hitsA_sect_pass uDirB (natDigs i) ['\n'] puChunkP sgClose.data
    (fun j acc rest => puChunkP_pass uDirB (natDigs i) ['\n'] j acc rest
      (by decide) (by decide) (by decide) (by decide)) n3 0]
  rw [wrapDP_pass uDirB (natDigs i) ['\n'] _ _
    (by decide) (by decide) (by decide) (by decide) (by decide)]
  rw [hitsA_sect_pass uDirB (natDigs i) ['\n'] dfChunkP sgParen.data
    (fun j acc rest => dfChunkP_pass uDirB (natDigs i) ['\n'] j acc rest
      (by decide) (by decide) (by decide)) n1 0]
  simp only [List.singleton_append, List.nil_append, listAppendEq, hitsA]
  rw [hitsA_sect_pass uDirB (natDigs i) ['\n'] sfChunkP sgParen.data
    (fun j acc rest => sfChunkP_pass uDirB (natDigs i) ['\n'] j acc rest
      (by decide) (by decide) (by decide)) n2 0]
  simp only [List.singleton_append, List.nil_append, listAppendEq, hitsA]
  rw [hitsA_sect_pass uDirB (natDigs i) ['\n'] pfChunkP sgPfB.data
    (fun j acc rest => pfChunkP_pass uDirB (natDigs i) ['\n'] j acc rest
      (by decide) (by decide)) n3 0]
  simp only [hitsA]
  have hiff : (0 ≤ i ∧ i < 0 + n1) ↔ i < n1 := by omega
  rw [if_congr hiff rfl rfl]
  omega


theorem countOcc_phong_spotS (body : String)
    (hb : ∀ c ∈ body.data, c.isDigit = false) (n1 n2 n3 i : Nat) :
    countOcc (uSpotS ++ natDigs i ++ [';'])
      (phong_fragment_shader body n1 n2 n3).data = if i < n2 then 1 else 0 := by
  rw [phong_fragment_shader_data, countOcc_renderP_eq_hitsA uSpotS (natDigs i) [';']
    (by decide) (by decide) (by decide) (by decide) (natDigs_isDigit i)
    (natDigs_ne_nil i) (phongMid body n1 n2 n3)
    (okPieces_phongMid body hb n1 n2 n3) sourceHead.data sourceHead_ne_nil
    sourceHead_digitFree]
  rw [phongMid]
  rw [hitsA_sect_pass uSpotS (natDigs i) [';'] duChunkP sgClose.data
    (fun j acc rest => duChunkP_pass uSpotS (natDigs i) [';'] j acc rest
      (by decide) (by decide) (by decide) (by decide) (by decide) (by decide)) n1 0]
  simp only [List.singleton_append, List.nil_append, listAppendEq, hitsA]
  rw [hitsA_sect_hit uSpotS [';'] i suChunkP sgClose.data
    (fun j => suChunkP_spotS i j) n2 0]
  simp only [List.singleton_append, List.nil_append, listAppendEq, hitsA]
  rw [hitsA_sect_pass uSpotS (natDigs i) [';'] puChunkP sgClose.data
    (fun j acc rest => puChunkP_pass uSpotS (natDigs i) [';'] j acc rest
      (by decide) (by decide) (by decide) (by decide)) n3 0]
  rw [wrapDP_pass uSpotS (natDigs i) [';'] _ _
    (by decide) (by decide) (by decide) (by decide) (by decide)]
  rw [hitsA_sect_pass uSpotS (natDigs i) [';'] dfChunkP sgParen.data
    (fun j acc rest => dfChunkP_pass uSpotS (natDigs i) [';'] j acc rest
      (by decide) (by decide) (by decide)) n1 0]
  simp only [List.singleton_append, List.nil_append, listAppendEq, hitsA]
  rw [hitsA_sect_pass uSpotS (natDigs i) [';'] sfChunkP sgParen.data
    (fun j acc rest => sfChunkP_pass uSpotS (natDigs i) [';'] j acc rest
      (by decide) (by decide) (by decide)) n2 0]
  simp only [List.singleton_append, List.nil_append, listAppendEq, hitsA]
  rw [hitsA_sect_pass uSpotS (natDigs i) [';'] pfChunkP sgPfB.data
    (fun j acc rest => pfChunkP_pass uSpotS (natDigs i) [';'] j acc rest
      (by decide) (by decide)) n3 0]
  simp only [hitsA]
  have hiff : (0 ≤ i ∧ i < 0 + n2) ↔ i < n2 := by omega
  rw [if_congr hiff rfl rfl]
  omega


theorem countOcc_phong_spotB (body : String)
    (hb : ∀ c ∈ body.data, c.isDigit = false) (n1 n2 n3 i : Nat) :
    countOcc (uSpotB ++ natDigs i ++ ['\n'])
      (phong_fragment_shader body n1 n2 n3).data = if i < n2 then 1 else 0 := by
  rw [phong_fragment_shader_data, countOcc_renderP_eq_hitsA uSpotB (natDigs i) ['\n']
    (by decide) (by decide) (by decide) (by decide) (natDigs_isDigit i)
    (natDigs_ne_nil i) (phongMid body n1 n2 n3)
    (okPieces_phongMid body hb n1 n2 n3) sourceHead.data sourceHead_ne_nil
    sourceHead_digitFree]
  rw [phongMid]
  rw [hitsA_sect_pass uSpotB (natDigs i) ['\n'] duChunkP sgClose.data
    (fun j acc rest => duChunkP_pass uSpotB (natDigs i) ['\n'] j acc rest
      (by decide) (by decide) (by decide) (by decide) (by decide) (by decide)) n1 0]
  simp only [List.singleton_append, List.nil_append, listAppendEq, hitsA]
  rw [hitsA_sect_hit uSpotB ['\n'] i suChunkP sgClose.data
    (fun j => suChunkP_spotB i j) n2 0]
  simp only [List.singleton_append, List.nil_append, listAppendEq, hitsA]
  rw [hitsA_sect_pass uSpotB (natDigs i) ['\n'] puChunkP sgClose.data
    (fun j acc rest => puChunkP_pass uSpotB (natDigs i) ['\n'] j acc rest
      (by decide) (by decide) (by decide) (by decide)) n3 0]
  rw [wrapDP_pass uSpotB (natDigs i) ['\n'] _ _
    (by decide) (by decide) (by decide) (by decide) (by decide)]
  rw [hitsA_sect_pass uSpotB (natDigs i) ['\n'] dfChunkP sgParen.data
    (fun j acc rest => dfChunkP_pass uSpotB (natDigs i) ['\n'] j acc rest
      (by decide) (by decide) (by decide)) n1 0]
  simp only [List.singleton_append, List.nil_append, listAppendEq, hitsA]
  rw [hitsA_sect_pass uSpotB (natDigs i) ['\n'] sfChunkP sgParen.data
    (fun j acc rest => sfChunkP_pass uSpotB (natDigs i) ['\n'] j acc rest
      (by decide) (by decide) (by decide)) n2 0]
  simp only [List.singleton_append, List.nil_append, listAppendEq, hitsA]
  rw [hitsA_sect_pass uSpotB (natDigs i) ['\n'] pfChunkP sgPfB.data
    (fun j acc rest => pfChunkP_pass uSpotB (natDigs i) ['\n'] j acc rest
      (by decide) (by decide)) n3 0]
  simp only [hitsA]
  have hiff : (0 ≤ i ∧ i < 0 + n2) ↔ i < n2 := by omega
  rw [if_congr hiff rfl rfl]
  omega


theorem countOcc_phong_pointB (body : String)
    (hb : ∀ c ∈ body.data, c.isDigit = false) (n1 n2 n3 i : Nat) :
    countOcc (uPointB ++ natDigs i ++ ['\n'])
      (phong_fragment_shader body n1 n2 n3).data = if i < n3 then 1 else 0 := by
  rw [phong_fragment_shader_data, countOcc_renderP_eq_hitsA uPointB (natDigs i) ['\n']
    (by decide) (by decide) (by decide) (by decide) (natDigs_isDigit i)
    (natDigs_ne_nil i) (phongMid body n1 n2 n3)
    (okPieces_phongMid body hb n1 n2 n3) sourceHead.data sourceHead_ne_nil
    sourceHead_digitFree]
  rw [phongMid]
  rw [hitsA_sect_pass uPointB (natDigs i) ['\n'] duChunkP sgClose.data
    (fun j acc rest => duChunkP_pass uPointB (natDigs i) ['\n'] j acc rest
      (by decide) (by decide) (by decide) (by decide) (by decide) (by decide)) n1 0]
  simp only [List.singleton_append, List.nil_append, listAppendEq, hitsA]
  rw [hitsA_sect_pass uPointB (natDigs i) ['\n'] suChunkP sgClose.data
    (fun j acc rest => suChunkP_pass uPointB (natDigs i) ['\n'] j acc rest
      (by decide) (by decide) (by decide) (by decide) (by decide) (by decide)) n2 0]
  simp only [List.singleton_append, List.nil_append, listAppendEq, hitsA]
  rw [hitsA_sect_hit uPointB ['\n'] i puChunkP sgClose.data
    (fun j => puChunkP_pointB i j) n3 0]
  rw [wrapDP_pass uPointB (natDigs i) ['\n'] _ _
    (by decide) (by decide) (by decide) (by decide) (by decide)]
  rw [hitsA_sect_pass uPointB (natDigs i) ['\n'] dfChunkP sgParen.data
    (fun j acc rest => dfChunkP_pass uPointB (natDigs i) ['\n'] j acc rest
      (by decide) (by decide) (by decide)) n1 0]
  simp only [List.singleton_append, List.nil_append, listAppendEq, hitsA]
  rw [hitsA_sect_pass uPointB (natDigs i) ['\n'] sfChunkP sgParen.data
    (fun j acc rest => sfChunkP_pass uPointB (natDigs i) ['\n'] j acc rest
      (by decide) (by decide) (by decide)) n2 0]
  simp only [List.singleton_append, List.nil_append, listAppendEq, hitsA]
  rw [hitsA_sect_pass uPointB (natDigs i) ['\n'] pfChunkP sgPfB.data
    (fun j acc rest => pfChunkP_pass uPointB (natDigs i) ['\n'] j acc rest
      (by decide) (by decide)) n3 0]
  simp only [hitsA]
  have hiff : (0 ≤ i ∧ i < 0 + n3) ↔ i < n3 := by omega
  rw [if_congr hiff rfl rfl]
  omega


theorem countOcc_phong_pointS (body : String)
    (hb : ∀ c ∈ body.data, c.isDigit = false) (n1 n2 n3 i : Nat) :
    countOcc (uPointS ++ natDigs i ++ [';'])
      (phong_fragment_shader body n1 n2 n3).data = (0 : Nat) := by
  rw [phong_fragment_shader_data, countOcc_renderP_eq_hitsA uPointS (natDigs i) [';']
    (by decide) (by decide) (by decide) (by decide) (natDigs_isDigit i)
    (natDigs_ne_nil i) (phongMid body n1 n2 n3)
    (okPieces_phongMid body hb n1 n2 n3) sourceHead.data sourceHead_ne_nil
    sourceHead_digitFree]
  rw [phongMid]
  rw [hitsA_sect_pass uPointS (natDigs i) [';'] duChunkP sgClose.data
    (fun j acc rest => duChunkP_pass uPointS (natDigs i) [';'] j acc rest
      (by decide) (by decide) (by decide) (by decide) (by decide) (by decide)) n1 0]
  simp only [List.singleton_append, List.nil_append, listAppendEq, hitsA]
  rw [hitsA_sect_pass uPointS (natDigs i) [';'] suChunkP sgClose.data
    (fun j acc rest => suChunkP_pass uPointS (natDigs i) [';'] j acc rest
      (by decide) (by decide) (by decide) (by decide) (by decide) (by decide)) n2 0]
  simp only [List.singleton_append, List.nil_append, listAppendEq, hitsA]
  rw [hitsA_sect_pass uPointS (natDigs i) [';'] puChunkP sgClose.data
    (fun j acc rest => puChunkP_pass uPointS (natDigs i) [';'] j acc rest
      (by decide) (by decide) (by decide) (by decide)) n3 0]
  rw [wrapDP_pass uPointS (natDigs i) [';'] _ _
    (by decide) (by decide) (by decide) (by decide) (by decide)]
  rw [hitsA_sect_pass uPointS (natDigs i) [';'] dfChunkP sgParen.data
    (fun j acc rest => dfChunkP_pass uPointS (natDigs i) [';'] j acc rest
      (by decide) (by decide) (by decide)) n1 0]
  simp only [List.singleton_append, List.nil_append, listAppendEq, hitsA]
  rw [hitsA_sect_pass uPointS (natDigs i) [';'] sfChunkP sgParen.data
    (fun j acc rest => sfChunkP_pass uPointS (natDigs i) [';'] j acc rest
      (by decide) (by decide) (by decide)) n2 0]
  simp only [List.singleton_append, List.nil_append, listAppendEq, hitsA]
  rw [hitsA_sect_pass uPointS (natDigs i) [';'] pfChunkP sgPfB.data
    (fun j acc rest => pfChunkP_pass uPointS (natDigs i) [';'] j acc rest
      (by decide) (by decide)) n3 0]
  simp only [hitsA]

end ThreeD

namespace ThreeD

/-! ### Full declaration texts and their occurrence counts -/

/-- The full sampler declaration emitted for directional light `i`. -/
def dirSamplerDecl (i : Nat) : String :=
  "uniform sampler2D directionalShadowMap" ++ natStr i ++ ";"

/-- The full uniform-block declaration header emitted for directional light `i`. -/
def dirBlockDecl (i : Nat) : String :=
  "layout (std140) uniform DirectionalLightUniform" ++ natStr i ++ "\n"

/-- The full sampler declaration emitted for spot light `i`. -/
def spotSamplerDecl (i : Nat) : String :=
  "uniform sampler2D spotShadowMap" ++ natStr i ++ ";"

/-- The full uniform-block declaration header emitted for spot light `i`. -/
def spotBlockDecl (i : Nat) : String :=
  "layout (std140) uniform SpotLightUniform" ++ natStr i ++ "\n"

/-- The full uniform-block declaration header emitted for point light `i`. -/
def pointBlockDecl (i : Nat) : String :=
  "layout (std140) uniform PointLightUniform" ++ natStr i ++ "\n"

/-- A hypothetical point-light shadow-map sampler declaration (never emitted). -/
def pointSamplerDecl (i : Nat) : String :=
  "uniform sampler2D pointShadowMap" ++ natStr i ++ ";"

theorem countOcc_pre_le (pre tail t : List Char) (htne : tail ≠ []) :
    countOcc (pre ++ tail) t ≤ countOcc tail t :=
  le_trans (countOcc_prepend_le pre tail t htne)
    (countOcc_drop_le tail t pre.length)

theorem ifx_append_left {a m : List Char} (l : List Char) (h : a <:+: m) :
    a <:+: l ++ m := by
  obtain ⟨s, e, rfl⟩ := h
  exact ⟨l ++ s, e, by simp [List.append_assoc]⟩

theorem ifx_append_right {a m : List Char} (r : List Char) (h : a <:+: m) :
    a <:+: m ++ r := by
  obtain ⟨s, e, rfl⟩ := h
  exact ⟨s, e ++ r, by simp [List.append_assoc]⟩

theorem renderP_chunksP_infix (g : Nat → List Piece) (i : Nat) :
    ∀ (n s : Nat), s ≤ i → i < s + n →
      renderP (g i) <:+: renderP (chunksP g s n) := by
  intro n
  induction n with
  | zero =>
    intro s h1 h2
    omega
  | succ n ih =>
    intro s h1 h2
    rw [chunksP_succ, renderP_append]
    by_cases he : i = s
    · subst he
      exact ifx_append_right _ (List.infix_refl _)
    · exact ifx_append_left _ (ih (s + 1) (by omega) (by omega))

theorem dirSamplerDecl_data (i : Nat) :
    (dirSamplerDecl i).data
      = "uniform sampler2".data ++ (uDirS ++ (natDigs i ++ [';'])) := by
  simp only [dirSamplerDecl, uDirS, String.data_append, natStr_data,
    List.append_assoc, List.cons_append, List.nil_append]

theorem dirBlockDecl_data (i : Nat) :
    (dirBlockDecl i).data
      = "layout (std140) unifor".data ++ (uDirB ++ (natDigs i ++ ['\n'])) := by
  simp only [dirBlockDecl, uDirB, String.data_append, natStr_data,
    List.append_assoc, List.cons_append, List.nil_append]

theorem spotSamplerDecl_data (i : Nat) :
    (spotSamplerDecl i).data
      = "uniform sampler2".data ++ (uSpotS ++ (natDigs i ++ [';'])) := by
  simp only [spotSamplerDecl, uSpotS, String.data_append, natStr_data,
    List.append_assoc, List.cons_append, List.nil_append]

theorem spotBlockDecl_data (i : Nat) :
    (spotBlockDecl i).data
      = "layout (std140) unifor".data ++ (uSpotB ++ (natDigs i ++ ['\n'])) := by
  simp only [spotBlockDecl, uSpotB, String.data_append, natStr_data,
    List.append_assoc, List.cons_append, List.nil_append]

theorem pointBlockDecl_data (i : Nat) :
    (pointBlockDecl i).data
      = "layout (std140) unifor".data ++ (uPointB ++ (natDigs i ++ ['\n'])) := by
  simp only [pointBlockDecl, uPointB, String.data_append, natStr_data,
    List.append_assoc, List.cons_append, List.nil_append]

theorem pointSamplerDecl_data (i : Nat) :
    (pointSamplerDecl i).data
      = "uniform sampler2".data ++ (uPointS ++ (natDigs i ++ [';'])) := by
  simp only [pointSamplerDecl, uPointS, String.data_append, natStr_data,
    List.append_assoc, List.cons_append, List.nil_append]

end ThreeD

namespace ThreeD

theorem dirSamplerDecl_infix_chunk (i : Nat) :
    (dirSamplerDecl i).data <:+: (dirUniformChunk i).data := by
  refine ⟨"\n                ".data,
    ("\n                layout (std140) uniform DirectionalLightUniform" ++ natStr i
      ++ "\n                \x7b\n                    DirectionalLight directionalLight"
      ++ natStr i ++ ";\n                \x7d;").data, ?_⟩
  simp only [dirSamplerDecl, dirUniformChunk, String.data_append, natStr_data,
    List.append_assoc, List.cons_append, List.nil_append]

theorem dirBlockDecl_infix_chunk (i : Nat) :
    (dirBlockDecl i).data <:+: (dirUniformChunk i).data := by
  refine ⟨("\n                uniform sampler2D directionalShadowMap" ++ natStr i
      ++ ";\n                ").data,
    ("                \x7b\n                    DirectionalLight directionalLight"
      ++ natStr i ++ ";\n                \x7d;").data, ?_⟩
  simp only [dirBlockDecl, dirUniformChunk, String.data_append, natStr_data,
    List.append_assoc, List.cons_append, List.nil_append]

theorem spotSamplerDecl_infix_chunk (i : Nat) :
    (spotSamplerDecl i).data <:+: (spotUniformChunk i).data := by
  refine ⟨"\n                ".data,
    ("\n                layout (std140) uniform SpotLightUniform" ++ natStr i
      ++ "\n                \x7b\n                    SpotLight spotLight"
      ++ natStr i ++ ";\n                \x7d;").data, ?_⟩
  simp only [spotSamplerDecl, spotUniformChunk, String.data_append, natStr_data,
    List.append_assoc, List.cons_append, List.nil_append]

theorem spotBlockDecl_infix_chunk (i : Nat) :
    (spotBlockDecl i).data <:+: (spotUniformChunk i).data := by
  refine ⟨("\n                uniform sampler2D spotShadowMap" ++ natStr i
      ++ ";\n                ").data,
    ("                \x7b\n                    SpotLight spotLight"
      ++ natStr i ++ ";\n                \x7d;").data, ?_⟩
  simp only [spotBlockDecl, spotUniformChunk, String.data_append, natStr_data,
    List.append_assoc, List.cons_append, List.nil_append]

theorem pointBlockDecl_infix_chunk (i : Nat) :
    (pointBlockDecl i).data <:+: (pointUniformChunk i).data := by
  refine ⟨"\n                ".data,
    ("                \x7b\n                    PointLight pointLight"
      ++ natStr i ++ ";\n                \x7d;").data, ?_⟩
  simp only [pointBlockDecl, pointUniformChunk, String.data_append, natStr_data,
    List.append_assoc, List.cons_append, List.nil_append]

theorem phong_contains_duChunk (body : String) (n1 n2 n3 i : Nat) (h : i < n1) :
    (dirUniformChunk i).data <:+: (phong_fragment_shader body n1 n2 n3).data := by
  rw [phong_fragment_shader_data]
  apply ifx_append_left
  rw [phongMid, renderP_append]
  apply ifx_append_right
  rw [← renderP_duChunkP]
  exact renderP_chunksP_infix duChunkP i n1 0 (by omega) (by omega)

theorem phong_contains_suChunk (body : String) (n1 n2 n3 i : Nat) (h : i < n2) :
    (spotUniformChunk i).data <:+: (phong_fragment_shader body n1 n2 n3).data := by
  rw [phong_fragment_shader_data]
  apply ifx_append_left
  rw [phongMid]
  simp only [renderP_append]
  apply ifx_append_left
  apply ifx_append_left
  apply ifx_append_right
  rw [← renderP_suChunkP]
  exact renderP_chunksP_infix suChunkP i n2 0 (by omega) (by omega)

theorem phong_contains_puChunk (body : String) (n1 n2 n3 i : Nat) (h : i < n3) :
    (pointUniformChunk i).data <:+: (phong_fragment_shader body n1 n2 n3).data := by
  rw [phong_fragment_shader_data]
  apply ifx_append_left
  rw [phongMid]
  simp only [renderP_append]
  apply ifx_append_left
  apply ifx_append_left
  apply ifx_append_left
  apply ifx_append_left
  apply ifx_append_right
  rw [← renderP_puChunkP]
  exact renderP_chunksP_infix puChunkP i n3 0 (by omega) (by omega)

end ThreeD

namespace ThreeD

theorem countOcc_phong_dirSamplerDecl (body : String)
    (hb : ∀ c ∈ body.data, c.isDigit = false) (n1 n2 n3 i : Nat) :
    countOcc (dirSamplerDecl i).data (phong_fragment_shader body n1 n2 n3).data
      = if i < n1 then 1 else 0 := by
  have htne : uDirS ++ (natDigs i ++ [';']) ≠ [] := by
    intro hcontr
    have hlen := congrArg List.length hcontr
    simp only [List.length_append, List.length_cons, List.length_nil,
      List.length_singleton] at hlen
    omega
  have hle : countOcc (dirSamplerDecl i).data (phong_fragment_shader body n1 n2 n3).data
      ≤ countOcc (uDirS ++ (natDigs i ++ [';']))
          (phong_fragment_shader body n1 n2 n3).data := by
    rw [dirSamplerDecl_data]
    exact countOcc_pre_le _ _ _ htne
  have htail := countOcc_phong_dirS body hb n1 n2 n3 i
  rw [List.append_assoc] at htail
  rw [htail] at hle
  by_cases h : i < n1
  · rw [if_pos h] at hle ⊢
    have hge : 1 ≤ countOcc (dirSamplerDecl i).data (phong_fragment_shader body n1 n2 n3).data :=
      one_le_countOcc_of_infix ((dirSamplerDecl_infix_chunk i).trans
        (phong_contains_duChunk body n1 n2 n3 i h))
    omega
  · rw [if_neg h] at hle ⊢
    omega

theorem countOcc_phong_dirBlockDecl (body : String)
    (hb : ∀ c ∈ body.data, c.isDigit = false) (n1 n2 n3 i : Nat) :
    countOcc (dirBlockDecl i).data (phong_fragment_shader body n1 n2 n3).data
      = if i < n1 then 1 else 0 := by
  have htne : uDirB ++ (natDigs i ++ ['\n']) ≠ [] := by
    intro hcontr
    have hlen := congrArg List.length hcontr
    simp only [List.length_append, List.length_cons, List.length_nil,
      List.length_singleton] at hlen
    omega
  have hle : countOcc (dirBlockDecl i).data (phong_fragment_shader body n1 n2 n3).data
      ≤ countOcc (uDirB ++ (natDigs i ++ ['\n']))
          (phong_fragment_shader body n1 n2 n3).data := by
    rw [dirBlockDecl_data]
    exact countOcc_pre_le _ _ _ htne
  have htail := countOcc_phong_dirB body hb n1 n2 n3 i
  rw [List.append_assoc] at htail
  rw [htail] at hle
  by_cases h : i < n1
  · rw [if_pos h] at hle ⊢
    have hge : 1 ≤ countOcc (dirBlockDecl i).data (phong_fragment_shader body n1 n2 n3).data :=
      one_le_countOcc_of_infix ((dirBlockDecl_infix_chunk i).trans
        (phong_contains_duChunk body n1 n2 n3 i h))
    omega
  · rw [if_neg h] at hle ⊢
    omega

theorem countOcc_phong_spotSamplerDecl (body : String)
    (hb : ∀ c ∈ body.data, c.isDigit = false) (n1 n2 n3 i : Nat) :
    countOcc (spotSamplerDecl i).data (phong_fragment_shader body n1 n2 n3).data
      = if i < n2 then 1 else 0 := by
  have htne : uSpotS ++ (natDigs i ++ [';']) ≠ [] := by
    intro hcontr
    have hlen := congrArg List.length hcontr
    simp only [List.length_append, List.length_cons, List.length_nil,
      List.length_singleton] at hlen
    omega
  have hle : countOcc (spotSamplerDecl i).data (phong_fragment_shader body n1 n2 n3).data
      ≤ countOcc (uSpotS ++ (natDigs i ++ [';']))
          (phong_fragment_shader body n1 n2 n3).data := by
    rw [spotSamplerDecl_data]
    exact countOcc_pre_le _ _ _ htne
  have htail := countOcc_phong_spotS body hb n1 n2 n3 i
  rw [List.append_assoc] at htail
  rw [htail] at hle
  by_cases h : i < n2
  · rw [if_pos h] at hle ⊢
    have hge : 1 ≤ countOcc (spotSamplerDecl i).data (phong_fragment_shader body n1 n2 n3).data :=
      one_le_countOcc_of_infix ((spotSamplerDecl_infix_chunk i).trans
        (phong_contains_suChunk body n1 n2 n3 i h))
    omega
  · rw [if_neg h] at hle ⊢
    omega

theorem countOcc_phong_spotBlockDecl (body : String)
    (hb : ∀ c ∈ body.data, c.isDigit = false) (n1 n2 n3 i : Nat) :
    countOcc (spotBlockDecl i).data (phong_fragment_shader body n1 n2 n3).data
      = if i < n2 then 1 else 0 := by
  have htne : uSpotB ++ (natDigs i ++ ['\n']) ≠ [] := by
    intro hcontr
    have hlen := congrArg List.length hcontr
    simp only [List.length_append, List.length_cons, List.length_nil,
      List.length_singleton] at hlen
    omega
  have hle : countOcc (spotBlockDecl i).data (phong_fragment_shader body n1 n2 n3).data
      ≤ countOcc (uSpotB ++ (natDigs i ++ ['\n']))
          (phong_fragment_shader body n1 n2 n3).data := by
    rw [spotBlockDecl_data]
    exact countOcc_pre_le _ _ _ htne
  have htail := countOcc_phong_spotB body hb n1 n2 n3 i
  rw [List.append_assoc] at htail
  rw [htail] at hle
  by_cases h : i < n2
  · rw [if_pos h] at hle ⊢
    have hge : 1 ≤ countOcc (spotBlockDecl i).data (phong_fragment_shader body n1 n2 n3).data :=
      one_le_countOcc_of_infix ((spotBlockDecl_infix_chunk i).trans
        (phong_contains_suChunk body n1 n2 n3 i h))
    omega
  · rw [if_neg h] at hle ⊢
    omega

theorem countOcc_phong_pointBlockDecl (body : String)
    (hb : ∀ c ∈ body.data, c.isDigit = false) (n1 n2 n3 i : Nat) :
    countOcc (pointBlockDecl i).data (phong_fragment_shader body n1 n2 n3).data
      = if i < n3 then 1 else 0 := by
  have htne : uPointB ++ (natDigs i ++ ['\n']) ≠ [] := by
    intro hcontr
    have hlen := congrArg List.length hcontr
    simp only [List.length_append, List.length_cons, List.length_nil,
      List.length_singleton] at hlen
    omega
  have hle : countOcc (pointBlockDecl i).data (phong_fragment_shader body n1 n2 n3).data
      ≤ countOcc (uPointB ++ (natDigs i ++ ['\n']))
          (phong_fragment_shader body n1 n2 n3).data := by
    rw [pointBlockDecl_data]
    exact countOcc_pre_le _ _ _ htne
  have htail := countOcc_phong_pointB body hb n1 n2 n3 i
  rw [List.append_assoc] at htail
  rw [htail] at hle
  by_cases h : i < n3
  · rw [if_pos h] at hle ⊢
    have hge : 1 ≤ countOcc (pointBlockDecl i).data (phong_fragment_shader body n1 n2 n3).data :=
      one_le_countOcc_of_infix ((pointBlockDecl_infix_chunk i).trans
        (phong_contains_puChunk body n1 n2 n3 i h))
    omega
  · rw [if_neg h] at hle ⊢
    omega

theorem countOcc_phong_pointSamplerDecl (body : String)
    (hb : ∀ c ∈ body.data, c.isDigit = false) (n1 n2 n3 i : Nat) :
    countOcc (pointSamplerDecl i).data (phong_fragment_shader body n1 n2 n3).data
      = (0 : Nat) := by
  have htne : uPointS ++ (natDigs i ++ [';']) ≠ [] := by
    intro hcontr
    have hlen := congrArg List.length hcontr
    simp only [List.length_append, List.length_cons, List.length_nil,
      List.length_singleton] at hlen
    omega
  have hle : countOcc (pointSamplerDecl i).data (phong_fragment_shader body n1 n2 n3).data
      ≤ countOcc (uPointS ++ (natDigs i ++ [';']))
          (phong_fragment_shader body n1 n2 n3).data := by
    rw [pointSamplerDecl_data]
    exact countOcc_pre_le _ _ _ htne
  have htail := countOcc_phong_pointS body hb n1 n2 n3 i
  rw [List.append_assoc] at htail
  rw [htail] at hle
  omega

/-- **C2**: for every light-count triple and every index `i`, the composed
fragment source contains exactly one `directionalShadowMap{i}` sampler
declaration and one `DirectionalLightUniform{i}` block declaration when
`i < n1` (and none otherwise); likewise one `spotShadowMap{i}` sampler and one
`SpotLightUniform{i}` block when `i < n2`; one `PointLightUniform{i}` block when
`i < n3` and never any point shadow-map sampler.  In particular, composing for
2 directional + 1 point light yields exactly two directional sampler/block
declarations (indices 0 and 1), one point block declaration (index 0), and zero
spot declarations. -/
theorem C2_per_index_declaration_counts (body : String)
    (hb : ∀ c ∈ body.data, c.isDigit = false) (n1 n2 n3 i : Nat) :
    (countOcc (dirSamplerDecl i).data (phong_fragment_shader body n1 n2 n3).data
        = if i < n1 then 1 else 0) ∧
    (countOcc (dirBlockDecl i).data (phong_fragment_shader body n1 n2 n3).data
        = if i < n1 then 1 else 0) ∧
    (countOcc (spotSamplerDecl i).data (phong_fragment_shader body n1 n2 n3).data
        = if i < n2 then 1 else 0) ∧
    (countOcc (spotBlockDecl i).data (phong_fragment_shader body n1 n2 n3).data
        = if i < n2 then 1 else 0) ∧
    (countOcc (pointBlockDecl i).data (phong_fragment_shader body n1 n2 n3).data
        = if i < n3 then 1 else 0) ∧
    countOcc (pointSamplerDecl i).data (phong_fragment_shader body n1 n2 n3).data = 0 ∧
    countOcc (dirSamplerDecl 0).data (phong_fragment_shader body 2 0 1).data = 1 ∧
    countOcc (dirSamplerDecl 1).data (phong_fragment_shader body 2 0 1).data = 1 ∧
    countOcc (dirBlockDecl 0).data (phong_fragment_shader body 2 0 1).data = 1 ∧
    countOcc (dirBlockDecl 1).data (phong_fragment_shader body 2 0 1).data = 1 ∧
    countOcc (pointBlockDecl 0).data (phong_fragment_shader body 2 0 1).data = 1 ∧
    (∀ j, countOcc (spotSamplerDecl j).data (phong_fragment_shader body 2 0 1).data = 0) ∧
    (∀ j, countOcc (spotBlockDecl j).data (phong_fragment_shader body 2 0 1).data = 0) := by
  refine ⟨countOcc_phong_dirSamplerDecl body hb n1 n2 n3 i,
    countOcc_phong_dirBlockDecl body hb n1 n2 n3 i,
    countOcc_phong_spotSamplerDecl body hb n1 n2 n3 i,
    countOcc_phong_spotBlockDecl body hb n1 n2 n3 i,
    countOcc_phong_pointBlockDecl body hb n1 n2 n3 i,
    countOcc_phong_pointSamplerDecl body hb n1 n2 n3 i,
    ?_, ?_, ?_, ?_, ?_, ?_, ?_⟩
  · simpa using countOcc_phong_dirSamplerDecl body hb 2 0 1 0
  · simpa using countOcc_phong_dirSamplerDecl body hb 2 0 1 1
  · simpa using countOcc_phong_dirBlockDecl body hb 2 0 1 0
  · simpa using countOcc_phong_dirBlockDecl body hb 2 0 1 1
  · simpa using countOcc_phong_pointBlockDecl body hb 2 0 1 0
  · intro j
    simpa using countOcc_phong_spotSamplerDecl body hb 2 0 1 j
  · intro j
    simpa using countOcc_phong_spotBlockDecl body hb 2 0 1 j

/-- Witness for C2 at the empty (digit-free) material body, 2 directional +
0 spot + 1 point lights, index 0. -/
theorem C2_per_index_declaration_counts_witness :
    (∀ c ∈ ("" : String).data, c.isDigit = false) ∧
    countOcc (dirSamplerDecl 0).data (phong_fragment_shader "" 2 0 1).data
      = if 0 < 2 then 1 else 0 :=
  ⟨by decide, (C2_per_index_declaration_counts "" (by decide) 2 0 1 0).1⟩

/-- A `push_str` accumulation loop over `List.range` equals the join of the
per-index chunks in ascending index order. -/
theorem foldl_append_join (g : Nat → String) (l : List Nat) :
    l.foldl (fun acc i => acc ++ g i) "" = String.join (l.map g) := by
  rw [String.join, List.foldl_map]

/-- **C3**: for every light-count triple, the composed source is the
concatenation, in this fixed order, of the shared header utilities, the shared
lighting-model utility code, the light declarations plus the
`calculate_lighting` accumulation function (whose slots are joins over
ascending indices: directional, then spot, then point, in both the declaration
block and the function body), the material-supplied shader body, and the fixed
epilogue; and every per-index invocation chunk accumulates into the output
color via `color.rgb +=` of the corresponding per-kind contribution call. -/
theorem C3_fixed_concatenation_order (body : String) (n1 n2 n3 : Nat) :
    (phong_fragment_shader body n1 n2 n3
      = shared_frag ++ "\n" ++ light_shared_frag ++ "\n"
        ++ lightingWrapper
            (String.join ((List.range n1).map dirUniformChunk))
            (String.join ((List.range n2).map spotUniformChunk))
            (String.join ((List.range n3).map pointUniformChunk))
            (String.join ((List.range n1).map dirFunChunk))
            (String.join ((List.range n2).map spotFunChunk))
            (String.join ((List.range n3).map pointFunChunk))
        ++ "\n" ++ body ++ "\n" ++ lighting_frag)
    ∧ (∀ i, ("\n                    color.rgb += calculate_directional_light(directionalLight" : String).data
          <+: (dirFunChunk i).data)
    ∧ (∀ i, ("\n                    color.rgb += calculate_spot_light(spotLight" : String).data
          <+: (spotFunChunk i).data)
    ∧ (∀ i, ("\n                    color.rgb += calculate_point_light(pointLight" : String).data
          <+: (pointFunChunk i).data) := by
  refine ⟨?_, ?_, ?_, ?_⟩
  · simp only [phong_fragment_shader, foldl_append_join]
  · intro i
    simp only [dirFunChunk, String.data_append, List.append_assoc]
    exact List.prefix_append _ _
  · intro i
    simp only [spotFunChunk, String.data_append, List.append_assoc]
    exact List.prefix_append _ _
  · intro i
    simp only [pointFunChunk, String.data_append, List.append_assoc]
    exact List.prefix_append _ _

/-! ### C1: determinism and key separation of shader composition -/

/-- Modelled from the spec: the render-pass-kind discriminant that is part of
the Shader Source Key (the deferred pipeline module is not among the provided
sources). -/
inductive PassKind
  | forward
  | deferred
deriving DecidableEq

/-- Modelled from the spec: the shader composer keyed by
(material body, N_dir, N_spot, N_point, pass kind).  The forward arm is the
source-translated `phong_fragment_shader`; the deferred arm (whose module is
not among the provided sources) is modelled as the same composition under a
distinct geometry-pass marker, keeping the spec-stated property that the two
pass kinds never share source text. -/
def composeSource (body : String) (n1 n2 n3 : Nat) : PassKind → String
  | PassKind.forward => phong_fragment_shader body n1 n2 n3
  | PassKind.deferred =>
      "// deferred geometry pass\n" ++ phong_fragment_shader body n1 n2 n3

theorem foldl_acc_succ (g : Nat → String) (n : Nat) :
    (List.range (n + 1)).foldl (fun acc i => acc ++ g i) ""
      = ((List.range n).foldl (fun acc i => acc ++ g i) "") ++ g n := by
  rw [List.range_succ, List.foldl_append]
  simp only [List.foldl_cons, List.foldl_nil]

theorem dirUniformChunk_len_pos (n : Nat) : 0 < (dirUniformChunk n).length := by
  have h0 : 0 < ("\n                uniform sampler2D directionalShadowMap" : String).length := by
    decide
  simp only [dirUniformChunk, String.length_append]
  omega

theorem spotUniformChunk_len_pos (n : Nat) : 0 < (spotUniformChunk n).length := by
  have h0 : 0 < ("\n                uniform sampler2D spotShadowMap" : String).length := by
    decide
  simp only [spotUniformChunk, String.length_append]
  omega

theorem pointUniformChunk_len_pos (n : Nat) : 0 < (pointUniformChunk n).length := by
  have h0 : 0 < ("\n                layout (std140) uniform PointLightUniform" : String).length := by
    decide
  simp only [pointUniformChunk, String.length_append]
  omega

theorem phong_len_dir_succ (body : String) (n1 n2 n3 : Nat) :
    (phong_fragment_shader body (n1 + 1) n2 n3).length
      = (phong_fragment_shader body n1 n2 n3).length
        + ((dirUniformChunk n1).length + (dirFunChunk n1).length) := by
  simp only [phong_fragment_shader, lightingWrapper, foldl_acc_succ, String.length_append]
  omega

theorem phong_len_spot_succ (body : String) (n1 n2 n3 : Nat) :
    (phong_fragment_shader body n1 (n2 + 1) n3).length
      = (phong_fragment_shader body n1 n2 n3).length
        + ((spotUniformChunk n2).length + (spotFunChunk n2).length) := by
  simp only [phong_fragment_shader, lightingWrapper, foldl_acc_succ, String.length_append]
  omega

theorem phong_len_point_succ (body : String) (n1 n2 n3 : Nat) :
    (phong_fragment_shader body n1 n2 (n3 + 1)).length
      = (phong_fragment_shader body n1 n2 n3).length
        + ((pointUniformChunk n3).length + (pointFunChunk n3).length) := by
  simp only [phong_fragment_shader, lightingWrapper, foldl_acc_succ, String.length_append]
  omega

theorem phong_len_dir_mono (body : String) (n2 n3 : Nat) :
    StrictMono (fun n => (phong_fragment_shader body n n2 n3).length) := by
  apply strictMono_nat_of_lt_succ
  intro n
  show (phong_fragment_shader body n n2 n3).length
    < (phong_fragment_shader body (n + 1) n2 n3).length
  have h := phong_len_dir_succ body n n2 n3
  have hp := dirUniformChunk_len_pos n
  omega

theorem phong_len_spot_mono (body : String) (n1 n3 : Nat) :
    StrictMono (fun n => (phong_fragment_shader body n1 n n3).length) := by
  apply strictMono_nat_of_lt_succ
  intro n
  show (phong_fragment_shader body n1 n n3).length
    < (phong_fragment_shader body n1 (n + 1) n3).length
  have h := phong_len_spot_succ body n1 n n3
  have hp := spotUniformChunk_len_pos n
  omega

theorem phong_len_point_mono (body : String) (n1 n2 : Nat) :
    StrictMono (fun n => (phong_fragment_shader body n1 n2 n).length) := by
  apply strictMono_nat_of_lt_succ
  intro n
  show (phong_fragment_shader body n1 n2 n).length
    < (phong_fragment_shader body n1 n2 (n + 1)).length
  have h := phong_len_point_succ body n1 n2 n
  have hp := pointUniformChunk_len_pos n
  omega

theorem str_append_cancel_left (a b c : String) (h : a ++ b = a ++ c) : b = c := by
  have hd := congrArg String.data h
  simp only [String.data_append] at hd
  exact String.ext (List.append_cancel_left hd)

theorem phong_body_inj (body body' : String) (n1 n2 n3 : Nat)
    (h : phong_fragment_shader body n1 n2 n3 = phong_fragment_shader body' n1 n2 n3) :
    body = body' := by
  have hd := congrArg String.data h
  simp only [phong_fragment_shader, String.data_append] at hd
  have h1 := List.append_cancel_right hd
  have h2 := List.append_cancel_right h1
  exact String.ext (List.append_cancel_left h2)

/-- **C1**: shader composition is deterministic and key-separating: composing
twice with identical (material body, directional count, spot count, point
count, pass kind) yields byte-identical source, and the composed source differs
whenever any single light count, the material body, or the pass kind differs
(the other components held fixed). -/
theorem C1_composition_deterministic_key_separating
    (body body' : String) (n1 n1' n2 n2' n3 n3' : Nat) (k k' : PassKind) :
    (body = body' → n1 = n1' → n2 = n2' → n3 = n3' → k = k' →
      composeSource body n1 n2 n3 k = composeSource body' n1' n2' n3' k') ∧
    (n1 ≠ n1' → composeSource body n1 n2 n3 k ≠ composeSource body n1' n2 n3 k) ∧
    (n2 ≠ n2' → composeSource body n1 n2 n3 k ≠ composeSource body n1 n2' n3 k) ∧
    (n3 ≠ n3' → composeSource body n1 n2 n3 k ≠ composeSource body n1 n2 n3' k) ∧
    (body ≠ body' → composeSource body n1 n2 n3 k ≠ composeSource body' n1 n2 n3 k) ∧
    (k ≠ k' → composeSource body n1 n2 n3 k ≠ composeSource body n1 n2 n3 k') := by
  refine ⟨?_, ?_, ?_, ?_, ?_, ?_⟩
  · intro h1 h2 h3 h4 h5
    subst h1; subst h2; subst h3; subst h4; subst h5
    rfl
  · intro hne heq
    apply hne
    have hlen : (phong_fragment_shader body n1 n2 n3).length
        = (phong_fragment_shader body n1' n2 n3).length := by
      cases k <;> simp only [composeSource] at heq <;>
        (have hl := congrArg String.length heq;
         simp only [String.length_append] at hl; omega)
    exact (phong_len_dir_mono body n2 n3).injective hlen
  · intro hne heq
    apply hne
    have hlen : (phong_fragment_shader body n1 n2 n3).length
        = (phong_fragment_shader body n1 n2' n3).length := by
      cases k <;> simp only [composeSource] at heq <;>
        (have hl := congrArg String.length heq;
         simp only [String.length_append] at hl; omega)
    exact (phong_len_spot_mono body n1 n3).injective hlen
  · intro hne heq
    apply hne
    have hlen : (phong_fragment_shader body n1 n2 n3).length
        = (phong_fragment_shader body n1 n2 n3').length := by
      cases k <;> simp only [composeSource] at heq <;>
        (have hl := congrArg String.length heq;
         simp only [String.length_append] at hl; omega)
    exact (phong_len_point_mono body n1 n2).injective hlen
  · intro hne heq
    apply hne
    cases k
    · simp only [composeSource] at heq
      exact phong_body_inj _ _ _ _ _ heq
    · simp only [composeSource] at heq
      exact phong_body_inj _ _ _ _ _ (str_append_cancel_left _ _ _ heq)
  · intro hne heq
    cases k <;> cases k'
    · exact hne rfl
    · simp only [composeSource] at heq
      have hl := congrArg String.length heq
      simp only [String.length_append] at hl
      have h0 : 0 < ("// deferred geometry pass\n" : String).length := by decide
      omega
    · simp only [composeSource] at heq
      have hl := congrArg String.length heq
      simp only [String.length_append] at hl
      have h0 : 0 < ("// deferred geometry pass\n" : String).length := by decide
      omega
    · exact hne rfl

/-- Witness for C1: changing the directional-light count from 1 to 2 (all
other key components fixed) changes the composed forward-pass source. -/
theorem C1_composition_deterministic_key_separating_witness :
    composeSource "a" 1 0 0 PassKind.forward ≠ composeSource "a" 2 0 0 PassKind.forward :=
  (C1_composition_deterministic_key_separating "a" "a" 1 2 0 0 0 0
    PassKind.forward PassKind.forward).2.1 (by decide)

/-! ### Embedding of `bind_lights` (src/phong.rs, lines 113-151) -/

/-- Component model of the `Vec3` values bound as uniforms (floats modelled as
rationals). -/
structure Vec3 where
  x : ℚ
  y : ℚ
  z : ℚ
deriving DecidableEq

def vec3 (x y z : ℚ) : Vec3 := ⟨x, y, z⟩

/-- `color * intensity`: componentwise scaling of a vector by a scalar. -/
def scaleVec3 (v : Vec3) (s : ℚ) : Vec3 := ⟨v.x * s, v.y * s, v.z * s⟩

structure AmbientLight where
  color : Vec3
  intensity : ℚ

/-- A directional light as seen by `bind_lights`: its shadow-map texture and
its uniform buffer, modelled as opaque handles. -/
structure DirectionalLight where
  shadow_map : Nat
  buffer : Nat

structure SpotLight where
  shadow_map : Nat
  buffer : Nat

structure PointLight where
  buffer : Nat

/-- One GPU binding performed by `bind_lights` (`use_uniform_vec3`,
`use_texture`, or `use_uniform_block`). -/
inductive BindAction where
  | uniformVec3 : String → Vec3 → BindAction
  | texture : String → Nat → BindAction
  | uniformBlock : String → Nat → BindAction
deriving DecidableEq

/-- Shallow embedding of `bind_lights` from `src/phong.rs`: the sequence of
bindings it performs, in program order.  Loops over `0..len` with indexing
become `List.range`/`getD`. -/
def bind_lights (ambient_light : Option AmbientLight)
    (directional_lights : List DirectionalLight)
    (spot_lights : List SpotLight)
    (point_lights : List PointLight) : List BindAction :=
  [BindAction.uniformVec3 "ambientColor"
      ((ambient_light.map (fun light => scaleVec3 light.color light.intensity)).getD
        (vec3 0 0 0))]
  ++ (List.range directional_lights.length).flatMap (fun i =>
      [BindAction.texture ("directionalShadowMap" ++ natStr i)
          (directional_lights.getD i ⟨0, 0⟩).shadow_map,
       BindAction.uniformBlock ("DirectionalLightUniform" ++ natStr i)
          (directional_lights.getD i ⟨0, 0⟩).buffer])
  ++ (List.range spot_lights.length).flatMap (fun i =>
      [BindAction.texture ("spotShadowMap" ++ natStr i)
          (spot_lights.getD i ⟨0, 0⟩).shadow_map,
       BindAction.uniformBlock ("SpotLightUniform" ++ natStr i)
          (spot_lights.getD i ⟨0, 0⟩).buffer])
  ++ (List.range point_lights.length).flatMap (fun i =>
      [BindAction.uniformBlock ("PointLightUniform" ++ natStr i)
          (point_lights.getD i ⟨0⟩).buffer])

/-- Recognizes the binding of the `ambientColor` uniform. -/
def isAmbientBind : BindAction → Bool
  | BindAction.uniformVec3 n _ => n == "ambientColor"
  | _ => false

theorem dirSamplerDecl_name (i : Nat) :
    dirSamplerDecl i = "uniform sampler2D " ++ ("directionalShadowMap" ++ natStr i) ++ ";" := by
  have hcat : ("uniform sampler2D " : String) ++ "directionalShadowMap"
      = "uniform sampler2D directionalShadowMap" := by decide
  rw [dirSamplerDecl, ← hcat]
  simp only [String.append_assoc]

theorem dirBlockDecl_name (i : Nat) :
    dirBlockDecl i = "layout (std140) uniform " ++ ("DirectionalLightUniform" ++ natStr i) ++ "\n" := by
  have hcat : ("layout (std140) uniform " : String) ++ "DirectionalLightUniform"
      = "layout (std140) uniform DirectionalLightUniform" := by decide
  rw [dirBlockDecl, ← hcat]
  simp only [String.append_assoc]

theorem spotSamplerDecl_name (i : Nat) :
    spotSamplerDecl i = "uniform sampler2D " ++ ("spotShadowMap" ++ natStr i) ++ ";" := by
  have hcat : ("uniform sampler2D " : String) ++ "spotShadowMap"
      = "uniform sampler2D spotShadowMap" := by decide
  rw [spotSamplerDecl, ← hcat]
  simp only [String.append_assoc]

theorem spotBlockDecl_name (i : Nat) :
    spotBlockDecl i = "layout (std140) uniform " ++ ("SpotLightUniform" ++ natStr i) ++ "\n" := by
  have hcat : ("layout (std140) uniform " : String) ++ "SpotLightUniform"
      = "layout (std140) uniform SpotLightUniform" := by decide
  rw [spotBlockDecl, ← hcat]
  simp only [String.append_assoc]

theorem pointBlockDecl_name (i : Nat) :
    pointBlockDecl i = "layout (std140) uniform " ++ ("PointLightUniform" ++ natStr i) ++ "\n" := by
  have hcat : ("layout (std140) uniform " : String) ++ "PointLightUniform"
      = "layout (std140) uniform PointLightUniform" := by decide
  rw [pointBlockDecl, ← hcat]
  simp only [String.append_assoc]

/-- **C4**: for every `i`, the uniform-block and shadow-map-sampler names that
`bind_lights` binds for the i-th directional light
(`DirectionalLightUniform{i}`, `directionalShadowMap{i}`), the i-th spot light
(`SpotLightUniform{i}`, `spotShadowMap{i}`), and the i-th point light
(`PointLightUniform{i}`, with no shadow map) are exactly the names declared for
index `i` of that light kind in the source produced by the shader composer for
the corresponding light counts. -/
theorem C4_bind_names_match_declarations (body : String)
    (hb : ∀ c ∈ body.data, c.isDigit = false)
    (amb : Option AmbientLight) (dls : List DirectionalLight)
    (sls : List SpotLight) (pls : List PointLight) :
    (∀ i, i < dls.length →
      BindAction.texture ("directionalShadowMap" ++ natStr i)
          (dls.getD i ⟨0, 0⟩).shadow_map ∈ bind_lights amb dls sls pls ∧
      BindAction.uniformBlock ("DirectionalLightUniform" ++ natStr i)
          (dls.getD i ⟨0, 0⟩).buffer ∈ bind_lights amb dls sls pls ∧
      dirSamplerDecl i = "uniform sampler2D " ++ ("directionalShadowMap" ++ natStr i) ++ ";" ∧
      dirBlockDecl i = "layout (std140) uniform " ++ ("DirectionalLightUniform" ++ natStr i) ++ "\n" ∧
      countOcc (dirSamplerDecl i).data
          (phong_fragment_shader body dls.length sls.length pls.length).data = 1 ∧
      countOcc (dirBlockDecl i).data
          (phong_fragment_shader body dls.length sls.length pls.length).data = 1) ∧
    (∀ i, i < sls.length →
      BindAction.texture ("spotShadowMap" ++ natStr i)
          (sls.getD i ⟨0, 0⟩).shadow_map ∈ bind_lights amb dls sls pls ∧
      BindAction.uniformBlock ("SpotLightUniform" ++ natStr i)
          (sls.getD i ⟨0, 0⟩).buffer ∈ bind_lights amb dls sls pls ∧
      spotSamplerDecl i = "uniform sampler2D " ++ ("spotShadowMap" ++ natStr i) ++ ";" ∧
      spotBlockDecl i = "layout (std140) uniform " ++ ("SpotLightUniform" ++ natStr i) ++ "\n" ∧
      countOcc (spotSamplerDecl i).data
          (phong_fragment_shader body dls.length sls.length pls.length).data = 1 ∧
      countOcc (spotBlockDecl i).data
          (phong_fragment_shader body dls.length sls.length pls.length).data = 1) ∧
    (∀ i, i < pls.length →
      BindAction.uniformBlock ("PointLightUniform" ++ natStr i)
          (pls.getD i ⟨0⟩).buffer ∈ bind_lights amb dls sls pls ∧
      pointBlockDecl i = "layout (std140) uniform " ++ ("PointLightUniform" ++ natStr i) ++ "\n" ∧
      countOcc (pointBlockDecl i).data
          (phong_fragment_shader body dls.length sls.length pls.length).data = 1 ∧
      countOcc (pointSamplerDecl i).data
          (phong_fragment_shader body dls.length sls.length pls.length).data = 0) ∧
    (∀ name handle, BindAction.texture name handle ∈ bind_lights amb dls sls pls →
      (∃ i, i < dls.length ∧ name = "directionalShadowMap" ++ natStr i) ∨
      (∃ i, i < sls.length ∧ name = "spotShadowMap" ++ natStr i)) := by
  refine ⟨?_, ?_, ?_, ?_⟩
  · intro i hi
    have hmem1 : BindAction.texture ("directionalShadowMap" ++ natStr i)
        (dls.getD i ⟨0, 0⟩).shadow_map
        ∈ (List.range dls.length).flatMap (fun j =>
          [BindAction.texture ("directionalShadowMap" ++ natStr j) (dls.getD j ⟨0, 0⟩).shadow_map,
           BindAction.uniformBlock ("DirectionalLightUniform" ++ natStr j) (dls.getD j ⟨0, 0⟩).buffer]) :=
      List.mem_flatMap.mpr ⟨i, List.mem_range.mpr hi, by simp⟩
    have hmem2 : BindAction.uniformBlock ("DirectionalLightUniform" ++ natStr i)
        (dls.getD i ⟨0, 0⟩).buffer
        ∈ (List.range dls.length).flatMap (fun j =>
          [BindAction.texture ("directionalShadowMap" ++ natStr j) (dls.getD j ⟨0, 0⟩).shadow_map,
           BindAction.uniformBlock ("DirectionalLightUniform" ++ natStr j) (dls.getD j ⟨0, 0⟩).buffer]) :=
      List.mem_flatMap.mpr ⟨i, List.mem_range.mpr hi, by simp⟩
    refine ⟨?_, ?_, dirSamplerDecl_name i, dirBlockDecl_name i, ?_, ?_⟩
    · exact List.mem_append.mpr (Or.inl (List.mem_append.mpr (Or.inl
        (List.mem_append.mpr (Or.inr hmem1)))))
    · exact List.mem_append.mpr (Or.inl (List.mem_append.mpr (Or.inl
        (List.mem_append.mpr (Or.inr hmem2)))))
    · rw [countOcc_phong_dirSamplerDecl body hb dls.length sls.length pls.length i, if_pos hi]
    · rw [countOcc_phong_dirBlockDecl body hb dls.length sls.length pls.length i, if_pos hi]
  · intro i hi
    have hmem1 : BindAction.texture ("spotShadowMap" ++ natStr i)
        (sls.getD i ⟨0, 0⟩).shadow_map
        ∈ (List.range sls.length).flatMap (fun j =>
          [BindAction.texture ("spotShadowMap" ++ natStr j) (sls.getD j ⟨0, 0⟩).shadow_map,
           BindAction.uniformBlock ("SpotLightUniform" ++ natStr j) (sls.getD j ⟨0, 0⟩).buffer]) :=
      List.mem_flatMap.mpr ⟨i, List.mem_range.mpr hi, by simp⟩
    have hmem2 : BindAction.uniformBlock ("SpotLightUniform" ++ natStr i)
        (sls.getD i ⟨0, 0⟩).buffer
        ∈ (List.range sls.length).flatMap (fun j =>
          [BindAction.texture ("spotShadowMap" ++ natStr j) (sls.getD j ⟨0, 0⟩).shadow_map,
           BindAction.uniformBlock ("SpotLightUniform" ++ natStr j) (sls.getD j ⟨0, 0⟩).buffer]) :=
      List.mem_flatMap.mpr ⟨i, List.mem_range.mpr hi, by simp⟩
    refine ⟨?_, ?_, spotSamplerDecl_name i, spotBlockDecl_name i, ?_, ?_⟩
    · exact List.mem_append.mpr (Or.inl (List.mem_append.mpr (Or.inr hmem1)))
    · exact List.mem_append.mpr (Or.inl (List.mem_append.mpr (Or.inr hmem2)))
    · rw [countOcc_phong_spotSamplerDecl body hb dls.length sls.length pls.length i, if_pos hi]
    · rw [countOcc_phong_spotBlockDecl body hb dls.length sls.length pls.length i, if_pos hi]
  · intro i hi
    have hmem1 : BindAction.uniformBlock ("PointLightUniform" ++ natStr i)
        (pls.getD i ⟨0⟩).buffer
        ∈ (List.range pls.length).flatMap (fun j =>
          [BindAction.uniformBlock ("PointLightUniform" ++ natStr j) (pls.getD j ⟨0⟩).buffer]) :=
      List.mem_flatMap.mpr ⟨i, List.mem_range.mpr hi, by simp⟩
    refine ⟨?_, pointBlockDecl_name i, ?_, ?_⟩
    · exact List.mem_append.mpr (Or.inr hmem1)
    · rw [countOcc_phong_pointBlockDecl body hb dls.length sls.length pls.length i, if_pos hi]
    · exact countOcc_phong_pointSamplerDecl body hb dls.length sls.length pls.length i
  · intro name handle hmem
    simp only [bind_lights, List.mem_append, List.mem_flatMap, List.mem_range,
      List.mem_cons, List.mem_singleton, List.not_mem_nil, or_false] at hmem
    rcases hmem with ((h0 | ⟨j, hj, hm⟩) | ⟨j, hj, hm⟩) | ⟨j, hj, hm⟩
    · exact absurd h0 (by simp)
    · rcases hm with hm | hm
      · injection hm with h1 h2
        exact Or.inl ⟨j, hj, h1⟩
      · exact absurd hm (by simp)
    · rcases hm with hm | hm
      · injection hm with h1 h2
        exact Or.inr ⟨j, hj, h1⟩
      · exact absurd hm (by simp)
    · exact absurd hm (by simp)

/-- Witness for C4 at one directional light, empty material body. -/
theorem C4_bind_names_match_declarations_witness :
    (∀ c ∈ ("" : String).data, c.isDigit = false) ∧
    BindAction.texture ("directionalShadowMap" ++ natStr 0)
        (([⟨0, 0⟩] : List DirectionalLight).getD 0 ⟨0, 0⟩).shadow_map
      ∈ bind_lights none [⟨0, 0⟩] [] [] :=
  ⟨by decide, ((C4_bind_names_match_declarations "" (by decide) none [⟨0, 0⟩] [] []).1 0
    (by decide)).1⟩

theorem isAmbientBind_vec3 (n : String) (v : Vec3) :
    isAmbientBind (BindAction.uniformVec3 n v) = (n == "ambientColor") := rfl

theorem isAmbientBind_texture (n : String) (h : Nat) :
    isAmbientBind (BindAction.texture n h) = false := rfl

theorem isAmbientBind_block (n : String) (h : Nat) :
    isAmbientBind (BindAction.uniformBlock n h) = false := rfl

theorem countP_ambient_flatMap_zero (n : Nat) (f : Nat → List BindAction)
    (hf : ∀ j, List.countP isAmbientBind (f j) = 0) :
    List.countP isAmbientBind ((List.range n).flatMap f) = 0 := by
  rw [List.countP_flatMap]
  have hc : List.countP isAmbientBind ∘ f = fun _ => 0 := funext hf
  rw [hc]
  simp

/-- **C10**: `bind_lights` always binds the `ambientColor` uniform exactly once
per call — to the ambient light's color scaled by its intensity when an ambient
light is supplied, and to the zero vector when none is supplied — so omitting
the ambient light is observationally equivalent to supplying a black ambient
light. -/
theorem C10_ambient_color_bound_exactly_once
    (amb : Option AmbientLight) (dls : List DirectionalLight)
    (sls : List SpotLight) (pls : List PointLight) :
    ((bind_lights amb dls sls pls).countP isAmbientBind = 1) ∧
    (∀ l, amb = some l → (bind_lights amb dls sls pls).head?
        = some (BindAction.uniformVec3 "ambientColor" (scaleVec3 l.color l.intensity))) ∧
    (amb = none → (bind_lights amb dls sls pls).head?
        = some (BindAction.uniformVec3 "ambientColor" (vec3 0 0 0))) ∧
    bind_lights none dls sls pls = bind_lights (some ⟨vec3 0 0 0, 1⟩) dls sls pls := by
  refine ⟨?_, ?_, ?_, ?_⟩
  · simp only [bind_lights, List.countP_append]
    rw [countP_ambient_flatMap_zero _ _ (fun j => by
        simp [List.countP_cons, List.countP_nil, isAmbientBind_texture, isAmbientBind_block]),
      countP_ambient_flatMap_zero _ _ (fun j => by
        simp [List.countP_cons, List.countP_nil, isAmbientBind_texture, isAmbientBind_block]),
      countP_ambient_flatMap_zero _ _ (fun j => by
        simp [List.countP_cons, List.countP_nil, isAmbientBind_block])]
    simp [List.countP_cons, List.countP_nil, isAmbientBind_vec3]
  · intro l hl
    subst hl
    simp [bind_lights]
  · intro hl
    subst hl
    simp [bind_lights]
  · simp [bind_lights, scaleVec3, vec3]

/-- Witness for C10 with no ambient light and no other lights. -/
theorem C10_ambient_color_bound_exactly_once_witness :
    (bind_lights (none : Option AmbientLight) [] [] []).head?
      = some (BindAction.uniformVec3 "ambientColor" (vec3 0 0 0)) :=
  (C10_ambient_color_bound_exactly_once none [] [] []).2.2.1 rfl

/-! ### Embedding of `Texture2D` (src/core/texture/texture2d.rs) -/

/-- Interpolation filter modes; only their identity matters here. -/
inductive Interpolation where
  | nearest
  | linear
deriving DecidableEq

/-- The twelve supported element types from `TextureData`
(R/Rg/Rgb/Rgba each at U8/F16/F32). -/
inductive ElementType where
  | rU8 | rgU8 | rgbU8 | rgbaU8
  | rF16 | rgF16 | rgbF16 | rgbaF16
  | rF32 | rgF32 | rgbF32 | rgbaF32
deriving DecidableEq

/-- Channel count of each supported element type. -/
def channels : ElementType → Nat
  | ElementType.rU8 => 1
  | ElementType.rgU8 => 2
  | ElementType.rgbU8 => 3
  | ElementType.rgbaU8 => 4
  | ElementType.rF16 => 1
  | ElementType.rgF16 => 2
  | ElementType.rgbF16 => 3
  | ElementType.rgbaF16 => 4
  | ElementType.rF32 => 1
  | ElementType.rgF32 => 2
  | ElementType.rgbF32 => 3
  | ElementType.rgbaF32 => 4

/-- The `Texture2D` record fields relevant to this development. -/
structure Texture2D where
  width : Nat
  height : Nat
  number_of_mip_maps : Nat
  element_type : ElementType
deriving DecidableEq

/-- GPU context operations issued by the texture code, in program order. -/
inductive GpuOp where
  | bindTexture
  | setParameters : Interpolation → Interpolation → Option Interpolation → GpuOp
  | texStorage2D : Nat → Nat → Nat → GpuOp
  | texSubImage2D : Nat → Nat → Nat → Nat → Nat → GpuOp
  | generateMipmap
deriving DecidableEq

/-- Modelled from the spec: `calculate_number_of_mip_maps` is not among the
provided sources; per the spec the mip count is 1 when no mip filter is
requested and `⌊log2(max(width, height))⌋ + 1` otherwise. -/
def calculate_number_of_mip_maps (mip_map_filter : Option Interpolation)
    (width height : Nat) : Nat :=
  if mip_map_filter.isSome then Nat.log2 (max width height) + 1 else 1

/-- `Texture2D::generate_mip_maps`: binds and regenerates the mip chain only
when the stored mip count exceeds 1. -/
def generate_mip_maps (t : Texture2D) : List GpuOp :=
  if 1 < t.number_of_mip_maps then [GpuOp.bindTexture, GpuOp.generateMipmap] else []

/-- Shallow embedding of `Texture2D::new_empty`: the constructed record and
the GPU operations it issues. -/
def new_empty (et : ElementType) (width height : Nat)
    (min_filter mag_filter : Interpolation)
    (mip_map_filter : Option Interpolation) : Texture2D × List GpuOp :=
  let number_of_mip_maps := calculate_number_of_mip_maps mip_map_filter width height
  let texture : Texture2D := ⟨width, height, number_of_mip_maps, et⟩
  (texture,
    [GpuOp.bindTexture,
     GpuOp.setParameters min_filter mag_filter
       (if number_of_mip_maps = 1 then none else mip_map_filter),
     GpuOp.texStorage2D number_of_mip_maps width height]
    ++ generate_mip_maps texture)

/-- The error relevant to `fill`. -/
inductive TexError where
  | ResourceSizeMismatch
deriving DecidableEq

/-- Modelled from the spec: `check_data_length` is not among the provided
sources; per the spec it requires
`data.length = width * height * depth * channels(element_type)` (depth is 1
for 2D textures), failing with `ResourceSizeMismatch` otherwise. -/
def check_data_length (width height depth chans data_len : Nat) :
    Except TexError Unit :=
  if data_len = width * height * depth * chans then Except.ok ()
  else Except.error TexError.ResourceSizeMismatch

/-- Shallow embedding of `Texture2D::fill`: the result and the GPU operations
issued (empty when the length check fails). -/
def fill (t : Texture2D) (data_len : Nat) : Except TexError Unit × List GpuOp :=
  match check_data_length t.width t.height 1 (channels t.element_type) data_len with
  | Except.error e => (Except.error e, [])
  | Except.ok _ =>
      (Except.ok (),
        [GpuOp.bindTexture, GpuOp.texSubImage2D 0 0 0 t.width t.height]
          ++ generate_mip_maps t)

/-- **C5**: for every (width, height) and every filter configuration, the mip
count computed at texture creation is 1 when no mip-map filter is requested and
`⌊log2(max(width, height))⌋ + 1` when one is requested; it is the level count
of the storage allocated at construction, and `fill` never re-allocates
storage (the count is never recomputed afterwards). -/
theorem C5_mip_count_fixed_at_creation (et : ElementType) (w h : Nat)
    (minf magf : Interpolation) (mip : Option Interpolation) (data_len : Nat) :
    ((new_empty et w h minf magf mip).1.number_of_mip_maps
        = if mip.isSome then Nat.log2 (max w h) + 1 else 1) ∧
    GpuOp.texStorage2D ((new_empty et w h minf magf mip).1.number_of_mip_maps) w h
        ∈ (new_empty et w h minf magf mip).2 ∧
    (∀ op ∈ (fill (new_empty et w h minf magf mip).1 data_len).2,
        ∀ l ww hh, op ≠ GpuOp.texStorage2D l ww hh) := by
  refine ⟨rfl, ?_, ?_⟩
  · show GpuOp.texStorage2D (calculate_number_of_mip_maps mip w h) w h
      ∈ [GpuOp.bindTexture, _, GpuOp.texStorage2D (calculate_number_of_mip_maps mip w h) w h]
        ++ generate_mip_maps _
    exact List.mem_append.mpr (Or.inl (by simp))
  · intro op hop l ww hh
    simp only [fill] at hop
    rcases hcheck : check_data_length (new_empty et w h minf magf mip).1.width
        (new_empty et w h minf magf mip).1.height 1
        (channels (new_empty et w h minf magf mip).1.element_type) data_len with e | u
    · rw [hcheck] at hop
      simp at hop
    · rw [hcheck] at hop
      unfold generate_mip_maps at hop
      by_cases hmm : 1 < (new_empty et w h minf magf mip).1.number_of_mip_maps
      · rw [if_pos hmm] at hop
        fin_cases hop <;> simp
      · rw [if_neg hmm] at hop
        fin_cases hop <;> simp

/-- Witness for C5 at a 1×1 `R` `U8` texture with no mip filter. -/
theorem C5_mip_count_fixed_at_creation_witness :
    GpuOp.bindTexture
      ∈ (fill (new_empty ElementType.rU8 1 1
          Interpolation.nearest Interpolation.nearest none).1 1).2 ∧
    GpuOp.bindTexture ≠ GpuOp.texStorage2D 1 1 1 :=
  ⟨by decide,
   (C5_mip_count_fixed_at_creation ElementType.rU8 1 1
      Interpolation.nearest Interpolation.nearest none 1).2.2
     GpuOp.bindTexture (by decide) 1 1 1⟩

/-- **C6**: for every texture created by `new_empty` and every supported
element type, `fill` with a data length other than
`width * height * channels(element_type)` fails with `ResourceSizeMismatch`
and issues no GPU operation; with a matching length it succeeds, uploads the
data as a sub-image covering the full extent, and then regenerates the mip
chain exactly when the mip count exceeds 1. -/
theorem C6_fill_checks_length_then_uploads (et : ElementType) (w h : Nat)
    (minf magf : Interpolation) (mip : Option Interpolation) (data_len : Nat) :
    (data_len ≠ w * h * channels et →
      (fill (new_empty et w h minf magf mip).1 data_len).1
          = Except.error TexError.ResourceSizeMismatch ∧
      (fill (new_empty et w h minf magf mip).1 data_len).2 = []) ∧
    (data_len = w * h * channels et →
      (fill (new_empty et w h minf magf mip).1 data_len).1 = Except.ok () ∧
      (fill (new_empty et w h minf magf mip).1 data_len).2
        = [GpuOp.bindTexture, GpuOp.texSubImage2D 0 0 0 w h]
          ++ (if 1 < (new_empty et w h minf magf mip).1.number_of_mip_maps
              then [GpuOp.bindTexture, GpuOp.generateMipmap] else [])) := by
  have hw : (new_empty et w h minf magf mip).1.width = w := rfl
  have hh : (new_empty et w h minf magf mip).1.height = h := rfl
  have he : (new_empty et w h minf magf mip).1.element_type = et := rfl
  constructor
  · intro hne
    constructor <;> simp [fill, check_data_length, hw, hh, he, hne]
  · intro heq
    subst heq
    constructor
    · simp [fill, check_data_length, hw, hh, he]
    · simp [fill, check_data_length, hw, hh, he, generate_mip_maps]

/-- Witness for C6: filling a 1×1 single-channel texture with 0 elements
fails with `ResourceSizeMismatch` and issues no GPU operation. -/
theorem C6_fill_checks_length_then_uploads_witness :
    (fill (new_empty ElementType.rU8 1 1
        Interpolation.nearest Interpolation.nearest none).1 0).1
      = Except.error TexError.ResourceSizeMismatch ∧
    (fill (new_empty ElementType.rU8 1 1
        Interpolation.nearest Interpolation.nearest none).1 0).2 = [] :=
  (C6_fill_checks_length_then_uploads ElementType.rU8 1 1
    Interpolation.nearest Interpolation.nearest none 0).1 (by decide)

/-! ### Embedding of `Model::new` (src/renderer/object/model.rs) -/

/-- A model part: its name, optional material index, and geometry payload. -/
structure Part (G : Type) where
  name : String
  material_index : Option Nat
  geometry : G

/-- The `CpuModel` fields used by `Model::new`. -/
structure CpuModel (A G : Type) where
  materials : List A
  parts : List (Part G)

/-- Geometry/material pair produced per part. -/
structure Gm (G M : Type) where
  geometry : G
  material : M

inductive RendererError where
  | MissingMaterial : String → String → RendererError

/-- The per-part loop of `Model::new`: indexed material lookup with
`MissingMaterial(index.to_string(), part.name)` on failure, default material
when no index is given; the first failing part aborts construction. -/
def modelParts {G M : Type} (materials : List M) (d : M) :
    List (Part G) → Except RendererError (List (Gm G M))
  | [] => Except.ok []
  | part :: rest =>
      match part.material_index with
      | some material_index =>
          match materials[material_index]? with
          | some m =>
              (modelParts materials d rest).map (fun gms => ⟨part.geometry, m⟩ :: gms)
          | none =>
              Except.error (RendererError.MissingMaterial (natStr material_index) part.name)
      | none => (modelParts materials d rest).map (fun gms => ⟨part.geometry, d⟩ :: gms)

/-- Shallow embedding of `Model::new`: maps `from_cpu_material` over the CPU
materials, then builds one `Gm` per part. -/
def Model.new {A G M : Type} (from_cpu_material : A → M) (d : M)
    (cpu_model : CpuModel A G) : Except RendererError (List (Gm G M)) :=
  modelParts (cpu_model.materials.map from_cpu_material) d cpu_model.parts

theorem modelParts_error_name {G M : Type} (materials : List M) (d : M)
    (parts : List (Part G)) :
    ∀ (e : RendererError), modelParts materials d parts = Except.error e →
      ∃ part, part ∈ parts ∧ ∃ idx, part.material_index = some idx ∧
        materials.length ≤ idx ∧
        e = RendererError.MissingMaterial (natStr idx) part.name := by
  induction parts with
  | nil =>
      intro e h
      simp [modelParts] at h
  | cons part rest ih =>
      intro e h
      rw [modelParts] at h
      split at h
      next idx hmi =>
        split at h
        next m hget =>
          rcases hrec : modelParts materials d rest with e2 | gs <;> rw [hrec] at h
          · simp only [Except.map] at h
            injection h with h
            subst h
            obtain ⟨p2, hp2, rest2⟩ := ih e2 hrec
            exact ⟨p2, List.mem_cons_of_mem _ hp2, rest2⟩
          · simp only [Except.map] at h
            exact Except.noConfusion h
        next hget =>
          injection h with h
          subst h
          exact ⟨part, List.mem_cons_self _ _, idx, hmi,
            List.getElem?_eq_none_iff.mp hget, rfl⟩
      next hmi =>
        rcases hrec : modelParts materials d rest with e2 | gs <;> rw [hrec] at h
        · simp only [Except.map] at h
          injection h with h
          subst h
          obtain ⟨p2, hp2, rest2⟩ := ih e2 hrec
          exact ⟨p2, List.mem_cons_of_mem _ hp2, rest2⟩
        · simp only [Except.map] at h
          exact Except.noConfusion h

theorem modelParts_error_exists {G M : Type} (materials : List M) (d : M)
    (parts : List (Part G)) :
    (∃ part ∈ parts, ∃ idx, part.material_index = some idx ∧ materials.length ≤ idx) →
    ∃ e, modelParts materials d parts = Except.error e := by
  induction parts with
  | nil =>
      rintro ⟨p, hp, _⟩
      exact absurd hp (List.not_mem_nil _)
  | cons part rest ih =>
      rintro ⟨p, hp, idx, hidx, hlen⟩
      rcases List.mem_cons.mp hp with rfl | hp2
      · exact ⟨RendererError.MissingMaterial (natStr idx) p.name,
          by simp [modelParts, hidx, List.getElem?_eq_none hlen]⟩
      · obtain ⟨e2, he2⟩ := ih ⟨p, hp2, idx, hidx, hlen⟩
        rcases hmi : part.material_index with _ | j
        · exact ⟨e2, by simp [modelParts, hmi, he2, Except.map]⟩
        · rcases hget : materials[j]? with _ | m
          · exact ⟨RendererError.MissingMaterial (natStr j) part.name,
              by simp [modelParts, hmi, hget]⟩
          · exact ⟨e2, by simp [modelParts, hmi, hget, he2, Except.map]⟩

theorem modelParts_all_none {G M : Type} (materials : List M) (d : M)
    (parts : List (Part G)) (h : ∀ part ∈ parts, part.material_index = none) :
    modelParts materials d parts
      = Except.ok (parts.map (fun p => Gm.mk p.geometry d)) := by
  induction parts with
  | nil => simp [modelParts]
  | cons part rest ih =>
      have hmi := h part (List.mem_cons_self _ _)
      have hrec := ih (fun p hp => h p (List.mem_cons_of_mem _ hp))
      simp [modelParts, hmi, hrec, Except.map]

theorem modelParts_ok_pointwise {G M : Type} (materials : List M) (d : M)
    (parts : List (Part G)) :
    ∀ (gms : List (Gm G M)), modelParts materials d parts = Except.ok gms →
      gms.length = parts.length ∧
      ∀ i (hi : i < parts.length) (hgi : i < gms.length),
        (parts.get ⟨i, hi⟩).material_index = none →
        (gms.get ⟨i, hgi⟩).material = d := by
  induction parts with
  | nil =>
      intro gms h
      simp only [modelParts] at h
      injection h with h
      subst h
      exact ⟨rfl, fun i hi => absurd hi (by simp)⟩
  | cons part rest ih =>
      intro gms h
      rw [modelParts] at h
      split at h
      next idx hmi =>
        split at h
        next m hget =>
          rcases hrec : modelParts materials d rest with e2 | gs <;> rw [hrec] at h
          · simp only [Except.map] at h
            exact Except.noConfusion h
          · simp only [Except.map] at h
            injection h with h
            subst h
            obtain ⟨hlen, hpt⟩ := ih gs hrec
            refine ⟨by simp [hlen], ?_⟩
            intro i hi hgi hnone
            cases i with
            | zero =>
                have hx : part.material_index = none := hnone
                rw [hmi] at hx
                exact Option.noConfusion hx
            | succ n =>
                exact hpt n (Nat.lt_of_succ_lt_succ hi) (Nat.lt_of_succ_lt_succ hgi) hnone
        next hget =>
          exact Except.noConfusion h
      next hmi =>
        rcases hrec : modelParts materials d rest with e2 | gs <;> rw [hrec] at h
        · simp only [Except.map] at h
          exact Except.noConfusion h
        · simp only [Except.map] at h
          injection h with h
          subst h
          obtain ⟨hlen, hpt⟩ := ih gs hrec
          refine ⟨by simp [hlen], ?_⟩
          intro i hi hgi hnone
          cases i with
          | zero => rfl
          | succ n =>
              exact hpt n (Nat.lt_of_succ_lt_succ hi) (Nat.lt_of_succ_lt_succ hgi) hnone

/-- **C7**: for every CpuModel, `Model::new` fails (and then with a
`MissingMaterial` error naming the offending index and part) if and only if
some part carries a material index greater than or equal to the number of
materials in the model; on failure the `Except` carries no model. -/
theorem C7_missing_material_iff_out_of_range {A G M : Type} (f : A → M) (d : M)
    (cpu : CpuModel A G) :
    ((∃ e, Model.new f d cpu = Except.error e) ↔
      ∃ part ∈ cpu.parts, ∃ idx, part.material_index = some idx ∧
        cpu.materials.length ≤ idx) ∧
    (∀ e, Model.new f d cpu = Except.error e →
      ∃ part ∈ cpu.parts, ∃ idx, part.material_index = some idx ∧
        cpu.materials.length ≤ idx ∧
        e = RendererError.MissingMaterial (natStr idx) part.name) := by
  have hlen : (cpu.materials.map f).length = cpu.materials.length :=
    List.length_map _ _
  constructor
  · constructor
    · rintro ⟨e, he⟩
      obtain ⟨p, hp, idx, hmi, hge, _⟩ := modelParts_error_name _ d _ e he
      exact ⟨p, hp, idx, hmi, by rwa [hlen] at hge⟩
    · rintro ⟨p, hp, idx, hmi, hge⟩
      exact modelParts_error_exists _ d _ ⟨p, hp, idx, hmi, by rwa [hlen]⟩
  · intro e he
    obtain ⟨p, hp, idx, hmi, hge, hname⟩ := modelParts_error_name _ d _ e he
    exact ⟨p, hp, idx, hmi, by rwa [hlen] at hge, hname⟩

/-- Witness for C7: a single part referencing material 0 of an empty materials
list makes `Model::new` fail. -/
theorem C7_missing_material_iff_out_of_range_witness :
    ∃ e, Model.new (fun a : Unit => a) ()
        (CpuModel.mk ([] : List Unit) [Part.mk "part0" (some 0) ()])
      = Except.error e :=
  (C7_missing_material_iff_out_of_range (fun a : Unit => a) ()
      (CpuModel.mk ([] : List Unit) [Part.mk "part0" (some 0) ()])).1.mpr
    ⟨Part.mk "part0" (some 0) (), by simp, 0, rfl, by simp⟩

/-- **C9**: every part whose material index is absent is constructed with the
material type's default value, and a model all of whose parts lack material
indices is always constructed successfully — independently of the materials
list, including when it is empty. -/
theorem C9_absent_index_gets_default_material {A G M : Type} (f : A → M) (d : M)
    (cpu : CpuModel A G) :
    ((∀ part ∈ cpu.parts, part.material_index = none) →
      Model.new f d cpu
        = Except.ok (cpu.parts.map (fun p => Gm.mk p.geometry d))) ∧
    (∀ gms, Model.new f d cpu = Except.ok gms →
      gms.length = cpu.parts.length ∧
      ∀ i (hi : i < cpu.parts.length) (hgi : i < gms.length),
        (cpu.parts.get ⟨i, hi⟩).material_index = none →
        (gms.get ⟨i, hgi⟩).material = d) := by
  exact ⟨fun h => modelParts_all_none _ d _ h,
    fun gms h => modelParts_ok_pointwise _ d _ gms h⟩

/-- Witness for C9: one part with no material index and an empty materials
list yields the default material. -/
theorem C9_absent_index_gets_default_material_witness :
    Model.new (fun a : Unit => a) ()
        (CpuModel.mk ([] : List Unit) [Part.mk "p" none ()])
      = Except.ok [Gm.mk () ()] :=
  (C9_absent_index_gets_default_material (fun a : Unit => a) ()
      (CpuModel.mk ([] : List Unit) [Part.mk "p" none ()])).1
    (by simp)

/-! ### Embedding of `render_forward` (src/renderer/object/instanced_model.rs,
Shadable impl) -/

/-- A forward material as consumed by `render_forward`: render-state
derivation from the transparency flag, and fragment-source derivation from the
vertex-color flag. -/
structure ForwardMaterial (RS : Type) where
  render_states : Bool → RS
  fragment_shader_source : Bool → String

/-- Events performed inside the program closure of `render_forward`. -/
inductive ForwardEvent (RS : Type) where
  | bindUniforms : ForwardEvent RS
  | draw : RS → Nat → Nat → ForwardEvent RS

/-- The program request and closure events issued by one `render_forward`
call. -/
structure DrawCall (RS : Type) where
  vertex_source : String
  fragment_source : String
  events : List (ForwardEvent RS)

/-- Shallow embedding of `Shadable::render_forward` for `InstancedModel`:
derives the render states from the material and the mesh color buffer's
transparency flag (false when absent), derives the fragment source from the
material and whether a color buffer is present, requests the program for
(vertex source derived from the fragment source, fragment source), then binds
the material/camera uniforms and issues the draw; `use_uniforms_ok` models
whether the fallible uniform binding succeeds. -/
def render_forward {RS : Type} (material : ForwardMaterial RS)
    (color_buffer : Option (Nat × Bool))
    (camera_uniform_buffer camera_viewport : Nat)
    (vertex_shader_source : String → String)
    (use_uniforms_ok : Bool) : DrawCall RS :=
  let render_states := material.render_states
    ((color_buffer.map (fun p => p.2)).getD false)
  let fragment_shader_source := material.fragment_shader_source color_buffer.isSome
  { vertex_source := vertex_shader_source fragment_shader_source,
    fragment_source := fragment_shader_source,
    events := [ForwardEvent.bindUniforms]
      ++ (if use_uniforms_ok
          then [ForwardEvent.draw render_states camera_uniform_buffer camera_viewport]
          else []) }

/-- **C8**: `render_forward` derives the render state from the material
combined with the mesh color buffer's transparency flag (treated as false when
there is no color buffer), obtains the fragment shader source from the
material given whether the geometry has vertex colors (also deriving the
vertex source from it), binds the material/camera uniforms, and then issues
the draw with the camera's uniform buffer and viewport. -/
theorem C8_render_forward_state_and_source {RS : Type}
    (material : ForwardMaterial RS) (cb : Option (Nat × Bool))
    (ub vp : Nat) (vss : String → String) (ok : Bool) :
    ((render_forward material cb ub vp vss ok).fragment_source
        = material.fragment_shader_source cb.isSome) ∧
    ((render_forward material cb ub vp vss ok).vertex_source
        = vss (material.fragment_shader_source cb.isSome)) ∧
    ((render_forward material cb ub vp vss true).events
        = [ForwardEvent.bindUniforms,
           ForwardEvent.draw (material.render_states
               (match cb with
                | some (_, t) => t
                | none => false)) ub vp]) ∧
    ((render_forward material cb ub vp vss false).events
        = [ForwardEvent.bindUniforms]) := by
  refine ⟨rfl, rfl, ?_, rfl⟩
  rcases cb with _ | ⟨b, t⟩ <;> rfl

end ThreeD
